import Mathlib

/-!
Verification of the `pim` bibliographic-extraction core (`highwire.py`,
`library.py`) against its natural-language specification.

The Python code is shallowly embedded: strings are Lean `String`s (worked on
as `List Char`), dictionaries are association lists with unique keys, and
code that can raise a Python exception returns `Except PyErr _`.  The regular
expressions in the source are small and are embedded as bespoke scanning
functions that reproduce Python's leftmost, greedy-with-backtracking
semantics for those exact patterns (each function notes the pattern it
implements).  Recursions that are not structural use an explicit fuel equal
to the input length plus one, which is an upper bound on the number of scan
steps since every step consumes at least one character; this keeps every
definition computable by the kernel.
-/

namespace Pim

set_option maxRecDepth 100000

/-- Kinds of Python exception the embedded code can raise. -/
inductive PyErr where
  | indexError
  | typeError
  | attributeError
  | assertError
  | valueError
  | keyError
  deriving DecidableEq

/-- A value stored in the scraped metadata dictionary: after the
single-element collapse in `scrape_highwire` a value is either a single
string or a list of strings. -/
inductive HWVal where
  | scalar (s : String)
  | vals (l : List String)
  deriving DecidableEq

/-- Whether an `HWVal` is a single string (`True` for `scalar`). -/
def HWVal.isScal : HWVal → Bool
  | .scalar _ => true
  | .vals _ => false

/-- A Python dict with string keys, as an association list (unique keys,
insertion order). -/
abbrev Dict (α : Type) := List (String × α)

/-- Dictionary lookup (`d[k]` / `d.get(k)`): value of the first binding. -/
def lk {α : Type} (m : Dict α) (k : String) : Option α :=
  (m.find? (fun p => p.1 == k)).map (fun p => p.2)

/-- Dictionary assignment `d[k] = v`: overwrite the binding in place, or
append a new one (the dictionaries built here always have unique keys, so
replacing the first binding is dict assignment). -/
def dsetV {α : Type} (m : Dict α) (k : String) (v : α) : Dict α :=
  match m with
  | [] => [(k, v)]
  | p :: rest => if p.1 = k then (k, v) :: rest else p :: dsetV rest k v

/-- The `defaultdict(list)` append `d[k].append(v)` used by the tag scan. -/
def hwAdd (m : Dict (List String)) (k v : String) : Dict (List String) :=
  if m.any (fun p => p.1 == k) then
    m.map (fun p => if p.1 == k then (p.1, p.2 ++ [v]) else p)
  else m ++ [(k, [v])]

/-- Python's whitespace class (ASCII): the characters matched by `\s`, by
`str.split()` with no argument, and stripped by `str.rstrip()`. -/
def pySpace (c : Char) : Bool :=
  c == ' ' || c == '\t' || c == '\n' || c == '\r' || c == '\x0b' || c == '\x0c'

/-- A string made of one character (an element of Python iteration over a
string). -/
def chStr (c : Char) : String := String.mk [c]

/-- Python `sep.join(parts)`. -/
def joinSep (sep : String) : List String → String
  | [] => ""
  | [s] => s
  | s :: rest => s ++ sep ++ joinSep sep rest

/-- Python `str.split()` (split on runs of whitespace, dropping empties). -/
def splitWsGo : List Char → List Char → List (List Char)
  | [], acc => if acc.isEmpty then [] else [acc.reverse]
  | c :: rest, acc =>
    if pySpace c then
      if acc.isEmpty then splitWsGo rest [] else acc.reverse :: splitWsGo rest []
    else splitWsGo rest (c :: acc)

/-- Python `str.split()` on a character list. -/
def pySplitWs (l : List Char) : List (List Char) := splitWsGo l []

/-- Does `pat` occur at the start of `l`? (Python `str.startswith`). -/
def startsL : List Char → List Char → Bool
  | [], _ => true
  | _ :: _, [] => false
  | a :: as, b :: bs => a == b && startsL as bs

/-- Python substring containment `needle in hay`. -/
def hasSubL (needle : List Char) : List Char → Bool
  | [] => needle.isEmpty
  | l@(_ :: t) => startsL needle l || hasSubL needle t

/-- Python `name.replace('citation_', '')`: remove every occurrence of
`citation_`, scanning left to right (all occurrences, not just a prefix). -/
def stripCit : List Char → List Char
  | 'c' :: 'i' :: 't' :: 'a' :: 't' :: 'i' :: 'o' :: 'n' :: '_' :: rest => stripCit rest
  | c :: rest => c :: stripCit rest
  | [] => []

/- ### Tag Extractor: the meta-tag scan of `scrape_highwire` -/

/-- One attempt to match the regex `<\s*meta[^>]*>` at the start of `l`.
The pattern is deterministic: `\s*` is forced maximal (whitespace and `m`
are disjoint) and `[^>]*` runs to the first `>`.  Returns the matched text
and the remainder.  Note the tag name `meta` is matched case-SENSITIVELY,
exactly as in the source (no `re.IGNORECASE`). -/
def metaAt (l : List Char) : Option (List Char × List Char) :=
  match l with
  | '<' :: rest =>
    let ws := rest.takeWhile pySpace
    match rest.dropWhile pySpace with
    | 'm' :: 'e' :: 't' :: 'a' :: r2 =>
      let body := r2.takeWhile (fun c => c != '>')
      match r2.dropWhile (fun c => c != '>') with
      | '>' :: r4 =>
        some ('<' :: ws ++ 'm' :: 'e' :: 't' :: 'a' :: body ++ ['>'], r4)
      | _ => none
    | _ => none
  | _ => none

/-- Fuelled `re.finditer(r'<\s*meta[^>]*>', html)`: scan left to right,
restart after each match, advance one character on failure.  A fuel of
`length + 1` always suffices since every step consumes a character. -/
def findMetaF : Nat → List Char → List (List Char)
  | 0, _ => []
  | _ + 1, [] => []
  | fuel + 1, l@(_ :: t) =>
    match metaAt l with
    | some (tag, rest) => tag :: findMetaF fuel rest
    | none => findMetaF fuel t

/-- All matches of `<\s*meta[^>]*>` in `html`. -/
def findMeta (l : List Char) : List (List Char) := findMetaF (l.length + 1) l

/-- One attempt to match `([a-z]+)="([^"]*)"` at the start of `l`.  The
letter run is forced maximal (a shorter run would be followed by a letter,
not `=`), and `[^"]*` runs to the first `"`. -/
def attrAt (l : List Char) : Option ((List Char × List Char) × List Char) :=
  let isLow : Char → Bool := fun c => 'a' ≤ c && c ≤ 'z'
  let name := l.takeWhile isLow
  if name.isEmpty then none
  else
    match l.dropWhile isLow with
    | '=' :: '"' :: r2 =>
      let v := r2.takeWhile (fun c => c != '"')
      match r2.dropWhile (fun c => c != '"') with
      | '"' :: r4 => some ((name, v), r4)
      | _ => none
    | _ => none

/-- Fuelled `re.finditer('([a-z]+)="([^"]*)"', tag)`. -/
def findAttrsF : Nat → List Char → List (List Char × List Char)
  | 0, _ => []
  | _ + 1, [] => []
  | fuel + 1, l@(_ :: t) =>
    match attrAt l with
    | some (pair, rest) => pair :: findAttrsF fuel rest
    | none => findAttrsF fuel t

/-- All `name="value"` pairs inside one meta tag's text. -/
def findAttrs (l : List Char) : List (List Char × List Char) :=
  findAttrsF (l.length + 1) l

/-- The dict comprehension over the attribute pairs of one tag: later pairs
overwrite earlier ones.  `.lower()` on the key is the identity because the
key regex `([a-z]+)` only admits lowercase letters. -/
def tagDict (tag : List Char) : Dict String :=
  (findAttrs tag).foldl
    (fun d p => dsetV d (String.mk p.1) (String.mk p.2)) []

/-- The tag-scanning loop of `scrape_highwire`: collect, per citation tag,
the (prefix-stripped) name and content into a `defaultdict(list)`.  A name
must begin with `citation_` and must not equal `citation_reference`. -/
def collectTags (html : List Char) : Dict (List String) :=
  (findMeta html).foldl
    (fun hw tag =>
      let attrs := tagDict tag
      let name := (lk attrs "name").getD ""
      if startsL "citation_".data name.data && name != "citation_reference" then
        hwAdd hw (String.mk (stripCit name.data)) ((lk attrs "content").getD "")
      else hw) []

/- ### Domain identification (`get_domain`) -/

/-- Maximal run of non-dot characters (`[^.]+`, forced maximal before a
literal `.`). -/
def takeND (l : List Char) : List Char := l.takeWhile (fun c => c != '.')

/-- Remainder after the maximal non-dot run. -/
def dropND (l : List Char) : List Char := l.dropWhile (fun c => c != '.')

/-- One iteration of `([^.]+\.)` at the start of `l`. -/
def matchA (l : List Char) : Option (List Char) :=
  if (takeND l).isEmpty then none
  else
    match dropND l with
    | '.' :: r => some r
    | _ => none

/-- Match `([^.]+)(\.[^.]+)` at the start of `l`, returning the middle
group.  Both pieces are forced: the run is maximal, then a dot, then a
nonempty non-dot run. -/
def matchBC (l : List Char) : Option (List Char) :=
  let b := takeND l
  if b.isEmpty then none
  else
    match dropND l with
    | '.' :: r2 => if (takeND r2).isEmpty then none else some b
    | _ => none

/-- Fuelled match of `([^.]+\.)*([^.]+)(\.[^.]+)` at the start of `l` with
Python's greedy star: try more `([^.]+\.)` iterations first, fall back to
fewer.  Returns the second group. -/
def matchPF : Nat → List Char → Option (List Char)
  | 0, _ => none
  | fuel + 1, l =>
    match matchA l with
    | some r =>
      match matchPF fuel r with
      | some g => some g
      | none => matchBC l
    | none => matchBC l

/-- Python `re.search(r'([^.]+\.)*([^.]+)(\.[^.]+)', netloc)`: leftmost start
position wins. -/
def searchD : List Char → Option (List Char)
  | [] => none
  | l@(_ :: t) =>
    match matchPF (l.length + 1) l with
    | some g => some g
    | none => searchD t

/-- Modelled from Python's standard-library `urllib.parse.urlsplit` for
absolute URLs: the network location is the text after the first `://` up to
the first `/`, `?` or `#`.  (`urlsplit` itself is outside the repository;
this captures its documented behaviour on the URL shapes the tool accepts.) -/
def netlocOf (url : String) : String :=
  let rec go : List Char → Option (List Char)
    | ':' :: '/' :: '/' :: rest => some rest
    | _ :: t => go t
    | [] => none
  match go url.data with
  | some rest =>
    String.mk (rest.takeWhile (fun c => c != '/' && c != '?' && c != '#'))
  | none => ""

/-- Function `get_domain`: search the netloc for the domain pattern, keep the
second-to-last dot-separated component, strip non-alphanumerics, lowercase.
No match raises `ValueError`. -/
def get_domain (url : String) : Except PyErr String :=
  match searchD (netlocOf url).data with
  | none => .error .valueError
  | some g =>
    .ok (String.mk ((g.filter (fun c => c.isAlphanum)).map Char.toLower))

/- ### `scrape_highwire` -/

/-- Python `len(v)` of a dict value: characters of a string, elements of a
list. -/
def pyLen : HWVal → Nat
  | .scalar s => s.length
  | .vals l => l.length

/-- Python `v[0]` as used by the collapse step: first character of a string
(as a string), or first element of a list. -/
def pyFirst : HWVal → String
  | .scalar s => String.mk (s.data.take 1)
  | .vals l => l.headD ""

/-- The single-element collapse `if len(val) == 1: highwire[attr] = val[0]`. -/
def collapse1 (v : HWVal) : HWVal :=
  if pyLen v = 1 then .scalar (pyFirst v) else v

/-- Function `scrape_highwire(url, html)` with the domain already computed.  `sdA`
stands for the site override `scrape_sciencedirect_author`, whose body runs
the external BeautifulSoup HTML parser; it is passed as a parameter so the
theorems quantify over every behaviour it could have (every claim below
hypothesises a domain with no matching override, so it is never invoked).
The override table contains exactly the pair (`sciencedirect`, `author`). -/
def scrape_highwire (sdA : String → Except PyErr (Option HWVal))
    (domain : String) (html : String) : Except PyErr (Dict HWVal) :=
  let base : Dict HWVal := (collectTags html.data).map (fun p => (p.1, HWVal.vals p.2))
  let step : Except PyErr (Dict HWVal) :=
    if domain == "sciencedirect" && (lk base "author").isNone then
      match sdA html with
      | .error e => .error e
      | .ok (some v) => .ok (base ++ [("author", v)])
      | .ok none => .ok base
    else .ok base
  match step with
  | .error e => .error e
  | .ok hw => .ok (hw.map (fun p => (p.1, collapse1 p.2)))

/- ### Field Resolvers (the `parse_*` functions)

Each resolver in the source takes `(highwire, url, html)` but is marked
`unused-argument` for `url` and `html`; the unused parameters are dropped
here.  Resolvers that can raise return `Except`. -/

/-- Elements produced by Python iteration over a dict value: the characters
of a string (each a one-character string), or the elements of a list.  This
is the iteration `for author in highwire['author']` performs. -/
def pyIter : HWVal → List String
  | .scalar s => s.data.map chStr
  | .vals l => l

/-- Python `',' in s`. -/
def hasComma (s : String) : Bool := s.data.contains ','

/-- The `else` body of `parse_author` for one name: `names = author.split()`,
then `names[-1] + ', ' + ' '.join(names[:-1])`; an empty split raises
`IndexError`. -/
def nameFmt (author : String) : Except PyErr String :=
  match (pySplitWs author.data).getLast? with
  | none => .error .indexError
  | some last =>
    .ok (String.mk last ++ ", " ++
      joinSep " " (((pySplitWs author.data).dropLast).map String.mk))

/-- Resolver `parse_author`. -/
def parse_author (hw : Dict HWVal) : Except PyErr (Option String) :=
  match lk hw "author" with
  | none => .ok none
  | some v =>
    let elems := pyIter v
    if elems.all hasComma then .ok (some (joinSep " and " elems))
    else
      match elems.mapM nameFmt with
      | .error e => .error e
      | .ok formatted => .ok (some (joinSep " and " formatted))

/-- Resolver `parse_doi`. -/
def parse_doi (hw : Dict HWVal) : Option HWVal := lk hw "doi"

/-- Resolver `parse_journal`. -/
def parse_journal (hw : Dict HWVal) : Option HWVal := lk hw "journal"

/-- Resolver `parse_number`: `number`, then `issue`. -/
def parse_number (hw : Dict HWVal) : Option HWVal :=
  match lk hw "number" with
  | some v => some v
  | none => lk hw "issue"

/-- Python `str(v)` as used in f-strings: a string is itself; a list prints
with `repr` of its elements (modelled for quote-free element strings, the
only list shape the scraper produces that ever reaches an f-string). -/
def pyStr : HWVal → String
  | .scalar s => s
  | .vals l => "[" ++ joinSep ", " (l.map (fun s => "'" ++ s ++ "'")) ++ "]"

/-- Resolver `parse_pages`: both `firstpage` and `lastpage` present and different. -/
def parse_pages (hw : Dict HWVal) : Option String :=
  match lk hw "firstpage", lk hw "lastpage" with
  | some f, some l => if f ≠ l then some (pyStr f ++ "--" ++ pyStr l) else none
  | _, _ => none

/-- Resolver `parse_publisher`. -/
def parse_publisher (hw : Dict HWVal) : Option HWVal := lk hw "publisher"

/-- Resolver `parse_title`. -/
def parse_title (hw : Dict HWVal) : Option HWVal := lk hw "title"

/-- Python `s.lower()` for ASCII strings. -/
def pyLower (s : String) : String := String.mk (s.data.map Char.toLower)

/-- The test `highwire[attr].lower() == 'jour' or 'article' in highwire[attr]`
of `parse_type` on a string value. -/
def typeMatch (s : String) : Bool :=
  pyLower s == "jour" || hasSubL "article".data s.data

/-- Resolver `parse_type`: `type` then `article_type`; a matching value yields
`article`, otherwise the default `inproceedings`.  Calling `.lower()` on a
list value raises `AttributeError`. -/
def parse_type (hw : Dict HWVal) : Except PyErr String :=
  match lk hw "type" with
  | some (.vals _) => .error .attributeError
  | some (.scalar s) =>
    if typeMatch s then .ok "article"
    else
      match lk hw "article_type" with
      | some (.vals _) => .error .attributeError
      | some (.scalar s2) => .ok (if typeMatch s2 then "article" else "inproceedings")
      | none => .ok "inproceedings"
  | none =>
    match lk hw "article_type" with
    | some (.vals _) => .error .attributeError
    | some (.scalar s2) => .ok (if typeMatch s2 then "article" else "inproceedings")
    | none => .ok "inproceedings"

/-- Resolver `parse_volume`. -/
def parse_volume (hw : Dict HWVal) : Option HWVal := lk hw "volume"

/-- Leftmost match of `re.search('[0-9]{4}', s)`: the first window of four
consecutive ASCII digits. -/
def find4d : List Char → Option String
  | a :: rest =>
    match rest with
    | b :: c :: d :: _ =>
      if a.isDigit && b.isDigit && c.isDigit && d.isDigit then
        some (String.mk [a, b, c, d])
      else find4d rest
    | _ => none
  | [] => none

/-- The candidate loop of `parse_year`; `re.search` on a list value raises
`TypeError`. -/
def yearLoop (hw : Dict HWVal) : List String → Except PyErr (Option String)
  | [] => .ok none
  | a :: rest =>
    match lk hw a with
    | none => yearLoop hw rest
    | some (.vals _) => .error .typeError
    | some (.scalar s) =>
      match find4d s.data with
      | some y => .ok (some y)
      | none => yearLoop hw rest

/-- Resolver `parse_year`: `date`, `publication_date`, `online_date`, `cover_date`. -/
def parse_year (hw : Dict HWVal) : Except PyErr (Option String) :=
  yearLoop hw ["date", "publication_date", "online_date", "cover_date"]

/- ### `create_bibtex_id` -/

/-- Python `s.split(',', maxsplit=1)[0]`: text before the first comma. -/
def beforeComma (s : String) : String :=
  String.mk (s.data.takeWhile (fun c => c != ','))

/-- Python `part[0].upper() + part[1:]` (words from `split()` are nonempty). -/
def capFirst (w : List Char) : List Char :=
  match w with
  | [] => []
  | c :: rest => c.toUpper :: rest

/-- Python `str.title()`: a letter is uppercased after a non-cased character
and lowercased after a cased one; for the ASCII strings in play the cased
characters are exactly the letters.  The flag is whether the previous
character was cased. -/
def titleGo : Bool → List Char → List Char
  | _, [] => []
  | prev, c :: rest =>
    if c.isAlpha then
      (if prev then c.toLower else c.toUpper) :: titleGo true rest
    else c :: titleGo false rest

/-- The id string built by `create_bibtex_id` once `author`, `year` and
`title` are all present (as strings): author text before the first comma,
plus the year, plus the space-joined `.title()`-cased first three title
words, with every space then removed (`.replace(' ', '')` acts on the whole
accumulated id). -/
def mkId (a y t : String) : String :=
  let subbed := t.data.map (fun c => if c.isAlphanum then c else ' ')
  let words := (pySplitWs subbed).take 3
  let joined := joinSep " " (words.map (fun w => String.mk (capFirst w)))
  let titled := titleGo false joined.data
  String.mk (((beforeComma a).data ++ y.data ++ titled).filter (fun c => c != ' '))

/-- Function `create_bibtex_id`: the sentinel `FIXME` when `author`, `year` or
`title` is absent; otherwise the key, where a list-valued `author` raises
`AttributeError` (`.split` on a list), and a list-valued `year` or `title`
raises `TypeError` (`str += list`, `re.sub` on a list). -/
def create_bibtex_id (b : Dict HWVal) : Except PyErr String :=
  if (lk b "author").isSome && (lk b "year").isSome && (lk b "title").isSome then
    match lk b "author" with
    | some (.vals _) => .error .attributeError
    | none => .error .keyError
    | some (.scalar a) =>
      match lk b "year" with
      | some (.vals _) => .error .typeError
      | none => .error .keyError
      | some (.scalar y) =>
        match lk b "title" with
        | some (.vals _) => .error .typeError
        | none => .error .keyError
        | some (.scalar t) => .ok (mkId a y t)
  else .ok "FIXME"

/- ### Record Assembler (`highwire_to_bibtex`) -/

/-- The record produced by the resolver loop of `highwire_to_bibtex`, given
the already-computed results of the three fallible resolvers.  Attributes
resolving to `None` are omitted.  (`get_attributes()` is a Python set whose
iteration order is interpreter-dependent; the successful result is
order-independent, and the canonical alphabetical order is fixed here.) -/
def buildB (hw : Dict HWVal) (a : Option String) (ty : String)
    (y : Option String) : Dict HWVal :=
  List.filterMap (fun p => Option.map (fun v => (p.1, v)) p.2)
    [("author", Option.map HWVal.scalar a),
     ("doi", parse_doi hw),
     ("journal", parse_journal hw),
     ("number", parse_number hw),
     ("pages", Option.map HWVal.scalar (parse_pages hw)),
     ("publisher", parse_publisher hw),
     ("title", parse_title hw),
     ("type", some (HWVal.scalar ty)),
     ("volume", parse_volume hw),
     ("year", Option.map HWVal.scalar y)]

/-- The resolver loop of `highwire_to_bibtex` (everything before the id is
computed).  The first raising resolver aborts the call. -/
def resolveAttrs (hw : Dict HWVal) : Except PyErr (Dict HWVal) :=
  match parse_author hw with
  | .error e => .error e
  | .ok a =>
    match parse_type hw with
    | .error e => .error e
    | .ok ty =>
      match parse_year hw with
      | .error e => .error e
      | .ok y => .ok (buildB hw a ty y)

/-- Function `highwire_to_bibtex`: resolve all attributes, then attach
`bibtex['id'] = create_bibtex_id(bibtex)`. -/
def highwire_to_bibtex (hw : Dict HWVal) : Except PyErr (Dict HWVal) :=
  match resolveAttrs hw with
  | .error e => .error e
  | .ok b =>
    match create_bibtex_id b with
    | .error e => .error e
    | .ok idv => .ok (b ++ [("id", HWVal.scalar idv)])

/- ### Serializer (`bibtex_to_str`) -/

/-- Python string comparison `a <= b`: lexicographic by code point. -/
def strLeB : List Char → List Char → Bool
  | [], _ => true
  | _ :: _, [] => false
  | a :: as, b :: bs => if a = b then strLeB as bs else decide (a.toNat < b.toNat)

/-- Insert an entry into a key-sorted association list. -/
def insSorted (p : String × HWVal) : Dict HWVal → Dict HWVal
  | [] => [p]
  | q :: rest => if strLeB p.1.data q.1.data then p :: q :: rest else q :: insSorted p rest

/-- Python `sorted(bibtex.items())`: entries in increasing key order (keys are
unique, so the tuple order is the key order). -/
def sortByKey (m : Dict HWVal) : Dict HWVal := m.foldr insSorted []

/-- Serializer `bibtex_to_str`: the `@type {id,` line, one indented sorted `attr =
{value},` line per non-`type`/`id` attribute, and a closing brace; lines
joined by newlines with no trailing newline.  Missing `type`/`id` raise
`KeyError`; a list there raises `TypeError` (`str + list`). -/
def bibtex_to_str (b : Dict HWVal) : Except PyErr String :=
  match lk b "type" with
  | none => .error .keyError
  | some (.vals _) => .error .typeError
  | some (.scalar ty) =>
    match lk b "id" with
    | none => .error .keyError
    | some (.vals _) => .error .typeError
    | some (.scalar idv) =>
      let attrs := (sortByKey b).filter (fun p => p.1 != "type" && p.1 != "id")
      let lines := ("@" ++ ty ++ " \x7b" ++ idv ++ ",") ::
        attrs.map (fun p => "    " ++ p.1 ++ " = \x7b" ++ pyStr p.2 ++ "\x7d,") ++
        ["\x7d"]
      .ok (joinSep "\n" lines)

/- ### The pipeline (`to_bibtex`) -/

/-- The record-assembly part of `to_bibtex(url, html)`: domain, scrape,
resolve (the source computes the domain inside `scrape_highwire`). -/
def recordOf (sdA : String → Except PyErr (Option HWVal))
    (url html : String) : Except PyErr (Dict HWVal) :=
  match get_domain url with
  | .error e => .error e
  | .ok d =>
    match scrape_highwire sdA d html with
    | .error e => .error e
    | .ok hw => highwire_to_bibtex hw

/-- Function `to_bibtex(url, html)` with the page text already downloaded. -/
def to_bibtex (sdA : String → Except PyErr (Option HWVal))
    (url html : String) : Except PyErr String :=
  match recordOf sdA url html with
  | .error e => .error e
  | .ok b => bibtex_to_str b

/-- A site-override behaviour that always reports no data; used to
instantiate the override parameter in concrete computations (the claims all
concern domains whose override is never consulted). -/
def sdNone : String → Except PyErr (Option HWVal) := fun _ => .ok none

/- ### The library's line-oriented reader (`Library._read_bibtex`) -/

/-- The `__slots__` of `Paper`: the only attributes `setattr` accepts. -/
def paperSlots : List String :=
  ["id", "type", "address", "author", "booktitle", "doi", "editor", "edition",
   "howpublished", "institution", "journal", "month", "note", "number",
   "organization", "pages", "publisher", "school", "series", "title",
   "translator", "url", "venue", "volume", "year"]

/-- Python `Paper.__init__`: `id` set, `type` the empty string. -/
def newPaper (pid : String) : Dict String := [("id", pid), ("type", "")]

/-- Python `line.rstrip()`. -/
def rstripL (l : List Char) : List Char := (l.reverse.dropWhile pySpace).reverse

/-- Split a character stream into lines at `\n` (what iterating the file and
stripping produces; empty segments become blank lines, which the reader
skips). -/
def splitNlGo : List Char → List Char → List (List Char)
  | [], acc => [acc.reverse]
  | c :: rest, acc =>
    if c == '\n' then acc.reverse :: splitNlGo rest []
    else splitNlGo rest (c :: acc)

/-- The lines of a string. -/
def splitNl (l : List Char) : List (List Char) := splitNlGo l []

/-- The tail ` *{([^,]+),` of the header regex, matched to the end of the
line: optional spaces (forced maximal, since a shorter run would leave a
space where `{` is required), a literal `{`, then a nonempty comma-free id
and a final comma.  The id group is unique: the line must end with its only
comma. -/
def atTail (l : List Char) : Option (List Char) :=
  match l.dropWhile (fun c => c == ' ') with
  | '\x7b' :: r2 =>
    match r2.reverse with
    | ',' :: revId =>
      let idc := revId.reverse
      if idc.isEmpty || idc.contains ',' then none else some idc
    | _ => none
  | _ => none

/-- The group `([^ ]+)` of the header regex with Python's greedy
backtracking: prefer extending the group; on failure stop and try the tail
here.  `acc` is the reversed group so far.  Returns (type group, id group). -/
def atGroup1 : List Char → List Char → Option (List Char × List Char)
  | [], _ => none
  | c :: rest, acc =>
    if c == ' ' then
      if acc.isEmpty then none
      else (atTail (c :: rest)).map (fun idc => (acc.reverse, idc))
    else
      match atGroup1 rest (c :: acc) with
      | some r => some r
      | none =>
        if acc.isEmpty then none
        else (atTail (c :: rest)).map (fun idc => (acc.reverse, idc))

/-- Python `re.fullmatch('@(?P<type>[^ ]+) *{(?P<id>[^,]+),', line)`. -/
def atLine (l : List Char) : Option (List Char × List Char) :=
  match l with
  | '@' :: rest => atGroup1 rest []
  | _ => none

/-- Python `re.fullmatch(' *(?P<attr>[^ =]+) *= *{(?P<val>.+)},', line)`.  Every
quantified piece is forced (classes are disjoint from their followers), and
the greedy `(.+)` takes everything up to the final `},`; `.` does not match
a newline. -/
def attrLine (l : List Char) : Option (List Char × List Char) :=
  let notAttr : Char → Bool := fun c => c != ' ' && c != '='
  let r0 := l.dropWhile (fun c => c == ' ')
  let a := r0.takeWhile notAttr
  if a.isEmpty then none
  else
    match (r0.dropWhile notAttr).dropWhile (fun c => c == ' ') with
    | '=' :: r3 =>
      match r3.dropWhile (fun c => c == ' ') with
      | '\x7b' :: r5 =>
        match r5.reverse with
        | ',' :: '\x7d' :: revV =>
          let v := revV.reverse
          if v.isEmpty || v.contains '\n' then none else some (a, v)
        | _ => none
      | _ => none
    | _ => none

/-- The reader state: papers read so far (keyed by id) and the paper being
filled, if any. -/
abbrev ReadSt := Dict (Dict String) × Option (Dict String)

/-- One line of `Library._read_bibtex`: skip blank lines; a `@` line must
match the header regex (else the `assert` fails) and opens a paper; a `}`
line stores the paper (`paper.id` on `None` raises `AttributeError`); any
other line must match the attribute regex and sets a slot attribute
(`setattr` on `None`, or on a name outside `__slots__`, raises
`AttributeError`). -/
def read_step (st : ReadSt) (line : String) : Except PyErr ReadSt :=
  match rstripL line.data with
  | [] => .ok st
  | c :: rest =>
    if c = '@' then
      match atLine (c :: rest) with
      | some (ty, idc) =>
        .ok (st.1, some (dsetV (newPaper (String.mk idc)) "type" (String.mk ty)))
      | none => .error .assertError
    else if c = '\x7d' then
      match st.2 with
      | some p => .ok (dsetV st.1 ((lk p "id").getD "") p, none)
      | none => .error .attributeError
    else
      match attrLine (c :: rest) with
      | some (a, v) =>
        match st.2 with
        | some p =>
          if paperSlots.contains (String.mk a) then
            .ok (st.1, some (dsetV p (String.mk a) (String.mk v)))
          else .error .attributeError
        | none => .error .attributeError
      | none => .error .assertError

/-- Fold the reader over the lines. -/
def readFold (st : ReadSt) : List String → Except PyErr ReadSt
  | [] => .ok st
  | line :: rest =>
    match read_step st line with
    | .error e => .error e
    | .ok st2 => readFold st2 rest

/-- Method `Library._read_bibtex` on a list of lines: the papers dictionary. -/
def read_bibtex (lines : List String) : Except PyErr (Dict (Dict String)) :=
  match readFold ([], none) lines with
  | .error e => .error e
  | .ok st => .ok st.1

/-- Method `Library._read_bibtex` on the text of the library file. -/
def readStr (s : String) : Except PyErr (Dict (Dict String)) :=
  read_bibtex ((splitNl s.data).map String.mk)

/-- The character shape of a serialized `@type {id,` header line. -/
def headerLine (ty i : String) : List Char :=
  '@' :: (ty.data ++ ' ' :: '\x7b' :: (i.data ++ [',']))

/-- The character shape of a serialized `    attr = {value},` line. -/
def attrLineStr (k v : String) : List Char :=
  ' ' :: ' ' :: ' ' :: ' ' ::
    (k.data ++ ' ' :: '=' :: ' ' :: '\x7b' :: (v.data ++ ['\x7d', ',']))

/- ### Specification-side definitions (written from the claims' words, for
refinement-style comparisons) -/

/-- Every value of the metadata dict is a single string. -/
def hwScal (hw : Dict HWVal) : Bool := hw.all (fun p => p.2.isScal)

/-- An optional value that, if present, is a single string. -/
def scalOpt : Option HWVal → Bool
  | some (.vals _) => false
  | _ => true

/-- Modelled from the amended claim C2's words: the citation key is the
author text before the first comma, then the year, then the first three
whitespace-separated words of the title (after non-alphanumerics become
spaces), each word with its first letter capitalized and then title-cased
(letters after a cased character lowercased), all joined with no separator
and with every remaining space character removed from the whole key. -/
def idSpec (a y t : String) : String :=
  let words := (pySplitWs (t.data.map (fun c => if c.isAlphanum then c else ' '))).take 3
  let keyWords := words.map (fun w => titleGo false (capFirst w))
  String.mk (((beforeComma a).data ++ y.data ++ keyWords.flatten).filter (fun c => c != ' '))

/-- Modelled from claim C7's words: examine `date`, `publication_date`,
`online_date`, `cover_date` in priority order; the first candidate whose
(string) value contains four consecutive digits gives the result; if no
candidate yields such a substring, absent. -/
def yearSpec (hw : Dict HWVal) : Option String :=
  (["date", "publication_date", "online_date", "cover_date"].filterMap
    (fun a =>
      match lk hw a with
      | some (.scalar s) => find4d s.data
      | _ => none)).head?

/- ### Concrete inputs used by the claims -/

/-- The HTML of the spec's end-to-end scenario (claim C1). -/
def html1 : String :=
  "<meta name=\"citation_title\" content=\"Deep Learning\">" ++
  "<meta name=\"citation_author\" content=\"Jane Q Public\">" ++
  "<meta name=\"citation_date\" content=\"2019-05-01\">" ++
  "<meta name=\"citation_journal\" content=\"Nature\">" ++
  "<meta name=\"citation_doi\" content=\"10.1/xyz\">"

/-- An HTML page whose only citation tag has an empty `content` (claim C8). -/
def htmlEmptyDoi : String := "<meta name=\"citation_doi\" content=\"\">"

/-- A lowercase meta tag (claim C9). -/
def htmlLowerMeta : String := "<meta name=\"citation_title\" content=\"X\">"

/-- The same tag written `<META ...>` (claim C9). -/
def htmlUpperMeta : String := "<META name=\"citation_title\" content=\"X\">"

/-- The same tag written `<Meta ...>` (claim C9). -/
def htmlMixedMeta : String := "<Meta name=\"citation_title\" content=\"X\">"

/-- The same tag with whitespace between `<` and `meta` (claim C9). -/
def htmlSpacedMeta : String := "< \t meta name=\"citation_title\" content=\"X\">"

/-- A metadata dict with two comma-form authors, a date and two title tags
(what scraping a page with repeated `citation_title` produces); claim C5. -/
def hwTwoTitles : Dict HWVal :=
  [("author", .vals ["A, B", "C, D"]), ("date", .scalar "2019"),
   ("title", .vals ["X", "Y"])]

/-- The record the resolver loop produces from `hwTwoTitles`. -/
def recTwoTitles : Dict HWVal :=
  [("author", .scalar "A, B and C, D"), ("title", .vals ["X", "Y"]),
   ("type", .scalar "inproceedings"), ("year", .scalar "2019")]

/-- A complete record one of whose values contains a newline (claim C3). -/
def recNewline : Dict HWVal :=
  [("type", .scalar "article"), ("id", .scalar "K"), ("note", .scalar "a\nb")]

/-! ### Helper lemmas: small facts about the association-list dictionaries
and the scanning functions, shared by the claim theorems below. -/

/-- Looking up a key at the head of a dictionary. -/
theorem lk_cons_eq {α : Type} (k : String) (v : α) (m : Dict α) :
    lk ((k, v) :: m) k = some v := by
  unfold lk
  rw [List.find?_cons_of_pos _ (by simp)]
  rfl

/-- Looking up a key past a different head key. -/
theorem lk_cons_ne {α : Type} {k' k : String} (v : α) (m : Dict α)
    (h : k' ≠ k) : lk ((k', v) :: m) k = lk m k := by
  unfold lk
  rw [List.find?_cons_of_neg _ (by simp only [beq_iff_eq]; exact h)]

/-- Looking up in the empty dictionary. -/
theorem lk_nil {α : Type} (k : String) : lk ([] : Dict α) k = none := rfl

/-- A found value belongs to the dictionary. -/
theorem lk_mem {α : Type} {m : Dict α} {k : String} {v : α}
    (h : lk m k = some v) : (k, v) ∈ m := by
  unfold lk at h
  cases hf : m.find? (fun p => p.1 == k) with
  | none => rw [hf] at h; simp at h
  | some p =>
    rw [hf] at h
    have hm := List.mem_of_find?_eq_some hf
    have hp := List.find?_some hf
    cases p with
    | mk a b =>
      simp only [beq_iff_eq] at hp
      simp at h
      subst hp; subst h; exact hm

/-- In a dictionary whose values are all single strings, every lookup is a
single string. -/
theorem hwScal_lk {hw : Dict HWVal} {k : String} {v : HWVal}
    (hs : hwScal hw = true) (h : lk hw k = some v) : v.isScal = true := by
  have hm := lk_mem h
  unfold hwScal at hs
  rw [List.all_eq_true] at hs
  exact hs _ hm

/-- The resolver-output builder: entries with an absent value are dropped. -/
theorem optRow_some {k : String} {v : HWVal}
    (ps : List (String × Option HWVal)) :
    List.filterMap (fun p => Option.map (fun v => (p.1, v)) p.2)
      ((k, some v) :: ps) =
    (k, v) :: List.filterMap (fun p => Option.map (fun v => (p.1, v)) p.2) ps := rfl

/-- The resolver-output builder skips absent rows. -/
theorem optRow_none {k : String} (ps : List (String × Option HWVal)) :
    List.filterMap (fun p => Option.map (fun v => (p.1, v)) p.2)
      ((k, none) :: ps) =
    List.filterMap (fun p => Option.map (fun v => (p.1, v)) p.2) ps := rfl

/-- Looking a key up in the builder output skips a row with another key,
whether or not that row's value is present. -/
theorem lk_optRow_ne {k' k : String} (o : Option HWVal)
    (ps : List (String × Option HWVal)) (h : k' ≠ k) :
    lk (List.filterMap (fun p => Option.map (fun v => (p.1, v)) p.2)
      ((k', o) :: ps)) k =
    lk (List.filterMap (fun p => Option.map (fun v => (p.1, v)) p.2) ps) k := by
  cases o with
  | none => rw [optRow_none]
  | some v => rw [optRow_some, lk_cons_ne _ _ h]

/-- Looking up a key whose row is absent from the builder's row list. -/
theorem lk_rows_skip (k : String) (rows : List (String × Option HWVal))
    (h : rows.all (fun p => p.1 != k) = true) :
    lk (List.filterMap (fun p => Option.map (fun v => (p.1, v)) p.2) rows) k
      = none := by
  induction rows with
  | nil => rfl
  | cons p rest ih =>
    rw [List.all_cons, Bool.and_eq_true] at h
    cases p with
    | mk k' o =>
      rw [lk_optRow_ne o rest (bne_iff_ne.mp h.1)]
      exact ih h.2

/-- Looking up the key of a present row: earlier and later rows with other
keys do not interfere, whatever their values. -/
theorem lk_rows_hit {o : Option HWVal} (k : String)
    (pre post : List (String × Option HWVal))
    (hpre : pre.all (fun p => p.1 != k) = true)
    (hpost : post.all (fun p => p.1 != k) = true) :
    lk (List.filterMap (fun p => Option.map (fun v => (p.1, v)) p.2)
      (pre ++ (k, o) :: post)) k = o := by
  induction pre with
  | nil =>
    cases o with
    | none => rw [List.nil_append, optRow_none]; exact lk_rows_skip k post hpost
    | some v => rw [List.nil_append, optRow_some, lk_cons_eq]
  | cons p rest ih =>
    rw [List.all_cons, Bool.and_eq_true] at hpre
    cases p with
    | mk k' o' =>
      rw [List.cons_append, lk_optRow_ne o' _ (bne_iff_ne.mp hpre.1)]
      exact ih hpre.2

/-- The record built by the resolver loop holds exactly the resolved
`author`. -/
theorem buildB_author (hw : Dict HWVal) (a : Option String) (ty : String)
    (y : Option String) :
    lk (buildB hw a ty y) "author" = Option.map HWVal.scalar a :=
  lk_rows_hit "author" [] _ (by rfl) (by rfl)

/-- The record built by the resolver loop holds exactly the resolved `doi`. -/
theorem buildB_doi (hw : Dict HWVal) (a : Option String) (ty : String)
    (y : Option String) :
    lk (buildB hw a ty y) "doi" = parse_doi hw :=
  lk_rows_hit "doi" [("author", Option.map HWVal.scalar a)] _
    (by rfl) (by rfl)

/-- The record built by the resolver loop holds exactly the resolved
`journal`. -/
theorem buildB_journal (hw : Dict HWVal) (a : Option String) (ty : String)
    (y : Option String) :
    lk (buildB hw a ty y) "journal" = parse_journal hw :=
  lk_rows_hit "journal"
    [("author", Option.map HWVal.scalar a), ("doi", parse_doi hw)] _
    (by rfl) (by rfl)

/-- The record built by the resolver loop holds exactly the resolved
`number`. -/
theorem buildB_number (hw : Dict HWVal) (a : Option String) (ty : String)
    (y : Option String) :
    lk (buildB hw a ty y) "number" = parse_number hw :=
  lk_rows_hit "number"
    [("author", Option.map HWVal.scalar a), ("doi", parse_doi hw),
     ("journal", parse_journal hw)] _
    (by rfl) (by rfl)

/-- The record built by the resolver loop holds exactly the resolved
`publisher`. -/
theorem buildB_publisher (hw : Dict HWVal) (a : Option String) (ty : String)
    (y : Option String) :
    lk (buildB hw a ty y) "publisher" = parse_publisher hw :=
  lk_rows_hit "publisher"
    [("author", Option.map HWVal.scalar a), ("doi", parse_doi hw),
     ("journal", parse_journal hw), ("number", parse_number hw),
     ("pages", Option.map HWVal.scalar (parse_pages hw))] _
    (by rfl) (by rfl)

/-- The record built by the resolver loop holds exactly the resolved
`volume`. -/
theorem buildB_volume (hw : Dict HWVal) (a : Option String) (ty : String)
    (y : Option String) :
    lk (buildB hw a ty y) "volume" = parse_volume hw :=
  lk_rows_hit "volume"
    [("author", Option.map HWVal.scalar a), ("doi", parse_doi hw),
     ("journal", parse_journal hw), ("number", parse_number hw),
     ("pages", Option.map HWVal.scalar (parse_pages hw)),
     ("publisher", parse_publisher hw), ("title", parse_title hw),
     ("type", some (HWVal.scalar ty))] _
    (by rfl) (by rfl)

/-- The record built by the resolver loop never holds an `id` entry (the id
is appended afterwards). -/
theorem buildB_id_none (hw : Dict HWVal) (a : Option String) (ty : String)
    (y : Option String) :
    lk (buildB hw a ty y) "id" = none :=
  lk_rows_skip "id"
    [("author", Option.map HWVal.scalar a), ("doi", parse_doi hw),
     ("journal", parse_journal hw), ("number", parse_number hw),
     ("pages", Option.map HWVal.scalar (parse_pages hw)),
     ("publisher", parse_publisher hw), ("title", parse_title hw),
     ("type", some (HWVal.scalar ty)), ("volume", parse_volume hw),
     ("year", Option.map HWVal.scalar y)]
    (by rfl)

/-- The record built by the resolver loop holds exactly the resolved
`pages`. -/
theorem buildB_pages (hw : Dict HWVal) (a : Option String) (ty : String)
    (y : Option String) :
    lk (buildB hw a ty y) "pages" = Option.map HWVal.scalar (parse_pages hw) :=
  lk_rows_hit "pages"
    [("author", Option.map HWVal.scalar a), ("doi", parse_doi hw),
     ("journal", parse_journal hw), ("number", parse_number hw)] _
    (by rfl) (by rfl)

/-- The record built by the resolver loop holds exactly the resolved
`title`. -/
theorem buildB_title (hw : Dict HWVal) (a : Option String) (ty : String)
    (y : Option String) :
    lk (buildB hw a ty y) "title" = parse_title hw :=
  lk_rows_hit "title"
    [("author", Option.map HWVal.scalar a), ("doi", parse_doi hw),
     ("journal", parse_journal hw), ("number", parse_number hw),
     ("pages", Option.map HWVal.scalar (parse_pages hw)),
     ("publisher", parse_publisher hw)] _
    (by rfl) (by rfl)

/-- The record built by the resolver loop always holds the resolved `type`. -/
theorem buildB_type (hw : Dict HWVal) (a : Option String) (ty : String)
    (y : Option String) :
    lk (buildB hw a ty y) "type" = some (HWVal.scalar ty) :=
  lk_rows_hit "type"
    [("author", Option.map HWVal.scalar a), ("doi", parse_doi hw),
     ("journal", parse_journal hw), ("number", parse_number hw),
     ("pages", Option.map HWVal.scalar (parse_pages hw)),
     ("publisher", parse_publisher hw), ("title", parse_title hw)] _
    (by rfl) (by rfl)

/-- The record built by the resolver loop holds exactly the resolved
`year`. -/
theorem buildB_year (hw : Dict HWVal) (a : Option String) (ty : String)
    (y : Option String) :
    lk (buildB hw a ty y) "year" = Option.map HWVal.scalar y :=
  lk_rows_hit "year"
    [("author", Option.map HWVal.scalar a), ("doi", parse_doi hw),
     ("journal", parse_journal hw), ("number", parse_number hw),
     ("pages", Option.map HWVal.scalar (parse_pages hw)),
     ("publisher", parse_publisher hw), ("title", parse_title hw),
     ("type", some (HWVal.scalar ty)), ("volume", parse_volume hw)] _
    (by rfl) (by rfl)

/-- A whitespace character is not a comma. -/
theorem pySpace_ne_comma {c : Char} (h : pySpace c = true) : c ≠ ',' := by
  intro rfl_h
  subst rfl_h
  simp [pySpace] at h

/-- A whitespace character is not a comma-containing one-character string. -/
theorem hasComma_chStr_space {c : Char} (h : pySpace c = true) :
    hasComma (chStr c) = false := by
  simp [hasComma, chStr]
  exact fun heq => pySpace_ne_comma h heq.symm

/-- Formatting a one-character whitespace "author" raises `IndexError`:
`split()` returns the empty list and `names[-1]` is out of range. -/
theorem nameFmt_space {c : Char} (h : pySpace c = true) :
    nameFmt (chStr c) = .error PyErr.indexError := by
  simp [nameFmt, chStr, pySplitWs, splitWsGo, h]

/-- Formatting a one-character non-whitespace "author" succeeds. -/
theorem nameFmt_nospace {c : Char} (h : pySpace c = false) :
    nameFmt (chStr c) = .ok (String.mk [c] ++ ", " ++ joinSep " " []) := by
  simp [nameFmt, chStr, pySplitWs, splitWsGo, h]

/-- Mapping the per-author formatter over the characters of a string that
contains whitespace raises `IndexError` (the map stops at the first
whitespace character; the characters before it format fine). -/
theorem mapM_nameFmt_space : ∀ l : List Char, l.any pySpace = true →
    List.mapM nameFmt (l.map chStr) = .error PyErr.indexError := by
  intro l hl
  induction l with
  | nil => simp at hl
  | cons c rest ih =>
    rw [List.any_cons, Bool.or_eq_true] at hl
    cases hc : pySpace c with
    | true =>
      rw [List.map_cons, List.mapM_cons, nameFmt_space hc]
      rfl
    | false =>
      have hrest : rest.any pySpace = true := by
        cases hl with
        | inl h => rw [hc] at h; exact absurd h (by simp)
        | inr h => exact h
      rw [List.map_cons, List.mapM_cons, nameFmt_nospace hc, ih hrest]
      rfl

/-- The author resolver on a collapsed scalar author containing whitespace:
the character iteration reaches the whitespace character, whose `split()`
is empty, and `IndexError` is raised. -/
theorem parse_author_scalar_ws {hw : Dict HWVal} {s : String}
    (h : lk hw "author" = some (.scalar s))
    (hws : s.data.any pySpace = true) :
    parse_author hw = .error PyErr.indexError := by
  unfold parse_author
  rw [h]
  have hall : (pyIter (.scalar s)).all hasComma = false := by
    rw [List.any_eq_true] at hws
    obtain ⟨c, hc, hcs⟩ := hws
    apply (List.all_eq_false).mpr
    exact ⟨chStr c, List.mem_map_of_mem chStr hc,
      by rw [hasComma_chStr_space hcs]; simp⟩
  simp only [pyIter] at hall
  simp only [hall, pyIter, Bool.false_eq_true, if_false,
    mapM_nameFmt_space s.data hws]

/-- A domain other than `sciencedirect` never consults the override, so
scraping is the collapsed tag scan. -/
theorem scrape_no_override (sdA : String → Except PyErr (Option HWVal))
    {d : String} (html : String) (hnd : d ≠ "sciencedirect") :
    scrape_highwire sdA d html =
      .ok (((collectTags html.data).map (fun p => (p.1, HWVal.vals p.2))).map
        (fun p => (p.1, collapse1 p.2))) := by
  unfold scrape_highwire
  rw [beq_eq_false_iff_ne.mpr hnd]
  rfl

/-- Scraping HTML with no citation meta-tag (and no override) yields the
empty metadata dict. -/
theorem scrape_empty (sdA : String → Except PyErr (Option HWVal))
    {d : String} {html : String} (hnd : d ≠ "sciencedirect")
    (hscan : collectTags html.data = []) :
    scrape_highwire sdA d html = .ok [] := by
  rw [scrape_no_override sdA html hnd, hscan]
  rfl

/-- A successful resolver pass is exactly a `buildB` record for successful
runs of the three fallible resolvers. -/
theorem resolve_ok_shape {hw b : Dict HWVal} (h : resolveAttrs hw = .ok b) :
    ∃ a ty y, parse_author hw = .ok a ∧ parse_type hw = .ok ty ∧
      parse_year hw = .ok y ∧ b = buildB hw a ty y := by
  unfold resolveAttrs at h
  cases ha : parse_author hw with
  | error e => rw [ha] at h; exact absurd h (by simp)
  | ok a =>
    rw [ha] at h
    cases hty : parse_type hw with
    | error e => rw [hty] at h; exact absurd h (by simp)
    | ok ty =>
      rw [hty] at h
      cases hy : parse_year hw with
      | error e => rw [hy] at h; exact absurd h (by simp)
      | ok y =>
        rw [hy] at h
        simp only [Except.ok.injEq] at h
        exact ⟨a, ty, y, rfl, rfl, rfl, h.symm⟩

/-- A value whose `isScal` holds is a `scalar`. -/
theorem isScal_shape {v : HWVal} (h : v.isScal = true) : ∃ s, v = .scalar s := by
  cases v with
  | scalar s => exact ⟨s, rfl⟩
  | vals _ => simp [HWVal.isScal] at h

/-- The pages resolver, characterized on string-valued metadata: a result
exists exactly when both page attributes are present and differ, and then it
is `first--last`. -/
theorem pages_iff (hw : Dict HWVal) (r : String) (hs : hwScal hw = true) :
    parse_pages hw = some r ↔
      ∃ f l, lk hw "firstpage" = some (.scalar f) ∧
        lk hw "lastpage" = some (.scalar l) ∧ f ≠ l ∧ r = f ++ "--" ++ l := by
  unfold parse_pages
  cases hf : lk hw "firstpage" with
  | none => simp
  | some v =>
    cases hl : lk hw "lastpage" with
    | none => simp
    | some w =>
      obtain ⟨f, rfl⟩ := isScal_shape (hwScal_lk hs hf)
      obtain ⟨l, rfl⟩ := isScal_shape (hwScal_lk hs hl)
      dsimp only
      by_cases hfl : f = l
      · subst hfl
        simp
      · rw [if_pos (by simp [hfl])]
        simp only [pyStr, Option.some.injEq, HWVal.scalar.injEq]
        constructor
        · intro hr
          exact ⟨f, l, rfl, rfl, hfl, hr.symm⟩
        · rintro ⟨f', l', hf', hl', _, hr⟩
          cases hf'; cases hl'
          exact hr.symm

/-- The year loop, characterized on string-valued metadata: the first
candidate attribute whose value contains four consecutive digits wins. -/
theorem yearLoop_spec (hw : Dict HWVal) (hs : hwScal hw = true)
    (as : List String) :
    yearLoop hw as = .ok ((as.filterMap (fun a =>
      match lk hw a with
      | some (.scalar s) => find4d s.data
      | _ => none)).head?) := by
  induction as with
  | nil => rfl
  | cons a rest ih =>
    unfold yearLoop
    cases ha : lk hw a with
    | none => simpa [List.filterMap_cons, ha] using ih
    | some v =>
      cases v with
      | vals _ => exact absurd (hwScal_lk hs ha) (by simp [HWVal.isScal])
      | scalar s =>
        cases h4 : find4d s.data with
        | none => simpa [List.filterMap_cons, ha, h4] using ih
        | some y => simp [List.filterMap_cons, ha, h4]

/-- Head-sensitive lookup. -/
theorem lk_cons {α : Type} (k1 : String) (v1 : α) (m : Dict α) (k : String) :
    lk ((k1, v1) :: m) k = if k1 = k then some v1 else lk m k := by
  by_cases h : k1 = k
  · subst h; rw [lk_cons_eq, if_pos rfl]
  · rw [lk_cons_ne _ _ h, if_neg h]

/-- Appending a singleton with a different key does not change a lookup. -/
theorem lk_append_ne {α : Type} {k' k : String} (m : Dict α) (v : α)
    (h : k' ≠ k) : lk (m ++ [(k', v)]) k = lk m k := by
  induction m with
  | nil => rw [List.nil_append, lk_cons_ne _ _ h]
  | cons p rest ih =>
    cases p with
    | mk k1 v1 => rw [List.cons_append, lk_cons, lk_cons, ih]

/-- Appending a singleton whose key is absent from the front part makes that
key's lookup hit the appended value. -/
theorem lk_append_hit {α : Type} {m : Dict α} {k : String} (v : α)
    (h : lk m k = none) : lk (m ++ [(k, v)]) k = some v := by
  induction m with
  | nil => rw [List.nil_append]; exact lk_cons_eq _ _ _
  | cons p rest ih =>
    cases p with
    | mk k1 v1 =>
      by_cases hk : k1 = k
      · subst hk
        rw [lk_cons_eq] at h
        exact absurd h (by simp)
      · rw [lk_cons_ne _ _ hk] at h
        rw [List.cons_append, lk_cons_ne _ _ hk]
        exact ih h

/-- A successful record assembly is a resolver record plus the id entry. -/
theorem highwire_ok_shape {hw b : Dict HWVal}
    (h : highwire_to_bibtex hw = .ok b) :
    ∃ b0 idv, resolveAttrs hw = .ok b0 ∧ create_bibtex_id b0 = .ok idv ∧
      b = b0 ++ [("id", HWVal.scalar idv)] := by
  unfold highwire_to_bibtex at h
  cases hr : resolveAttrs hw with
  | error e => rw [hr] at h; exact absurd h (by simp)
  | ok b0 =>
    rw [hr] at h
    dsimp only at h
    cases hc : create_bibtex_id b0 with
    | error e => rw [hc] at h; exact absurd h (by simp)
    | ok idv =>
      rw [hc] at h
      simp only [Except.ok.injEq] at h
      exact ⟨b0, idv, rfl, hc, h.symm⟩

/-- Python `str.title()` distributes over a space: the space resets the
previous-character-was-cased flag. -/
theorem titleGo_space (b : Bool) (xs ys : List Char) :
    titleGo b (xs ++ ' ' :: ys) = titleGo b xs ++ ' ' :: titleGo false ys := by
  induction xs generalizing b with
  | nil => simp [titleGo]
  | cons c rest ih =>
    simp only [List.cons_append, titleGo]
    by_cases hc : c.isAlpha
    · simp [hc, ih]
    · simp [hc, ih]

/-- Title-casing a space-joined word list and then deleting spaces is the
same as title-casing the words independently and concatenating (the spaces
between words are exactly what the final `.replace(' ', '')` deletes). -/
theorem titleJoin (ws : List (List Char)) :
    (titleGo false (joinSep " " (ws.map String.mk)).data).filter
        (fun c => c != ' ')
      = ((ws.map (titleGo false)).flatten).filter (fun c => c != ' ') := by
  induction ws with
  | nil => rfl
  | cons w rest ih =>
    cases rest with
    | nil => simp [joinSep]
    | cons v rest2 =>
      have hdata : (joinSep " " ((w :: v :: rest2).map String.mk)).data
          = w ++ ' ' :: (joinSep " " ((v :: rest2).map String.mk)).data := by
        show (String.mk w ++ " " ++ joinSep " " ((v :: rest2).map String.mk)).data = _
        rw [String.data_append, String.data_append]
        simp [List.append_assoc]
      rw [hdata, titleGo_space]
      simp only [List.filter_append, List.filter_cons, bne_self_eq_false,
        Bool.false_eq_true, if_false, List.map_cons, List.flatten_cons]
      simp only [List.map_cons] at ih
      rw [ih]
      simp [List.filter_append]

/-- The id built by the code equals the amended claim's specification:
before-comma author, year, and the title-cased first three title words,
spaces removed throughout. -/
theorem mkId_eq_idSpec (a y t : String) : mkId a y t = idSpec a y t := by
  unfold mkId idSpec
  dsimp only
  have hm : ((pySplitWs (t.data.map
        (fun c => if c.isAlphanum then c else ' '))).take 3).map
          (fun w => String.mk (capFirst w))
      = (((pySplitWs (t.data.map
        (fun c => if c.isAlphanum then c else ' '))).take 3).map capFirst).map
          String.mk := by
    rw [List.map_map]; rfl
  have hk : ((pySplitWs (t.data.map
        (fun c => if c.isAlphanum then c else ' '))).take 3).map
          (fun w => titleGo false (capFirst w))
      = (((pySplitWs (t.data.map
        (fun c => if c.isAlphanum then c else ' '))).take 3).map capFirst).map
          (titleGo false) := by
    rw [List.map_map]; rfl
  rw [hm, hk]
  rw [List.filter_append, List.filter_append, List.filter_append,
    List.filter_append]
  rw [titleJoin]

/-- A four-digit match consists of digits and is nonempty. -/
theorem find4d_digits : ∀ (l : List Char) (y : String), find4d l = some y →
    y.data ≠ [] ∧ ∀ c ∈ y.data, c.isDigit = true := by
  intro l
  induction l with
  | nil => intro y h; simp [find4d] at h
  | cons a rest ih =>
    intro y h
    unfold find4d at h
    cases rest with
    | nil => simp at h
    | cons b r2 =>
      cases r2 with
      | nil => simp at h
      | cons c r3 =>
        cases r3 with
        | nil => simp at h
        | cons d r4 =>
          dsimp only at h
          by_cases hdig : (a.isDigit && b.isDigit && c.isDigit && d.isDigit)
              = true
          · rw [if_pos hdig] at h
            simp only [Option.some.injEq] at h
            subst h
            rw [Bool.and_eq_true, Bool.and_eq_true, Bool.and_eq_true] at hdig
            refine ⟨by simp, fun ch hch => ?_⟩
            have hch2 : ch ∈ [a, b, c, d] := hch
            simp only [List.mem_cons, List.not_mem_nil, or_false] at hch2
            rcases hch2 with rfl | rfl | rfl | rfl
            · exact hdig.1.1.1
            · exact hdig.1.1.2
            · exact hdig.1.2
            · exact hdig.2
          · rw [if_neg hdig] at h
            exact ih y h

/-- A year produced by the year resolver is a nonempty all-digit string. -/
theorem yearLoop_digits : ∀ (as : List String) (hw : Dict HWVal) (y : String),
    yearLoop hw as = .ok (some y) →
    y.data ≠ [] ∧ ∀ c ∈ y.data, c.isDigit = true := by
  intro as
  induction as with
  | nil => intro hw y h; exact absurd h (by simp [yearLoop])
  | cons a rest ih =>
    intro hw y h
    unfold yearLoop at h
    cases ha : lk hw a with
    | none => rw [ha] at h; exact ih hw y h
    | some v =>
      rw [ha] at h
      cases v with
      | vals _ => exact absurd h (by simp)
      | scalar s =>
        dsimp only at h
        cases h4 : find4d s.data with
        | none => rw [h4] at h; exact ih hw y h
        | some y' =>
          rw [h4] at h
          simp only [Except.ok.injEq, Option.some.injEq] at h
          subst h
          exact find4d_digits s.data y' h4

/-- A year produced by `parse_year` is a nonempty all-digit string. -/
theorem parse_year_digits {hw : Dict HWVal} {y : String}
    (h : parse_year hw = .ok (some y)) :
    y.data ≠ [] ∧ ∀ c ∈ y.data, c.isDigit = true :=
  yearLoop_digits _ hw y h

/-- A string made by filtering spaces out of a list that contains a
nonempty all-digit segment is not `FIXME`: the digits survive the filter
and `FIXME` contains no digit. -/
theorem fixmeAux (pre post : List Char) (y : String) (hne : y.data ≠ [])
    (hdig : ∀ c ∈ y.data, c.isDigit = true) :
    String.mk ((pre ++ y.data ++ post).filter (fun c => c != ' ')) ≠ "FIXME" := by
  intro h
  have hL : (pre ++ y.data ++ post).filter (fun c => c != ' ')
      = "FIXME".data := congrArg String.data h
  obtain ⟨c, t', hy⟩ : ∃ c t', y.data = c :: t' := by
    cases hyd : y.data with
    | nil => exact absurd hyd hne
    | cons c t' => exact ⟨c, t', rfl⟩
  have hcd : c.isDigit = true := hdig c (by rw [hy]; simp)
  have hcfil : c ∈ (pre ++ y.data ++ post).filter (fun c => c != ' ') := by
    rw [List.mem_filter]
    constructor
    · rw [List.mem_append]
      left
      rw [List.mem_append]
      right
      rw [hy]; simp
    · rw [bne_iff_ne]
      intro hsp
      subst hsp
      simp [Char.isDigit] at hcd
  rw [hL] at hcfil
  have hmem5 : c ∈ ['F', 'I', 'X', 'M', 'E'] := hcfil
  simp only [List.mem_cons, List.not_mem_nil, or_false] at hmem5
  rcases hmem5 with rfl | rfl | rfl | rfl | rfl <;>
    exact absurd hcd (by decide)

/-- With a nonempty all-digit year the computed citation key cannot be the
sentinel `FIXME`. -/
theorem mkId_ne_FIXME (a y t : String) (hne : y.data ≠ [])
    (hdig : ∀ c ∈ y.data, c.isDigit = true) : mkId a y t ≠ "FIXME" := by
  unfold mkId
  dsimp only
  exact fixmeAux _ _ y hne hdig

/- ### Round-trip lemmas for the serializer and the library reader -/

/-- Lemma: `takeWhile`/`dropWhile` split at the first failing element. -/
theorem tw_split (p : Char → Bool) (xs : List Char) (y : Char) (ys : List Char)
    (hx : ∀ x ∈ xs, p x = true) (hy : p y = false) :
    (xs ++ y :: ys).takeWhile p = xs ∧ (xs ++ y :: ys).dropWhile p = y :: ys := by
  induction xs with
  | nil => simp [List.takeWhile_cons, List.dropWhile_cons, hy]
  | cons x xs ih =>
    have hpx : p x = true := hx x (by simp)
    obtain ⟨h1, h2⟩ := ih (fun z hz => hx z (by simp [hz]))
    simp [List.takeWhile_cons, List.dropWhile_cons, hpx, h1, h2]

/-- Python `rstrip()` leaves a line ending in a non-whitespace character alone. -/
theorem rstrip_nosp (l : List Char) (c : Char) (hc : pySpace c = false) :
    rstripL (l ++ [c]) = l ++ [c] := by
  unfold rstripL
  rw [List.reverse_append]
  simp [List.dropWhile_cons, hc]

/-- Splitting a newline-free chunk produces a single line. -/
theorem splitNlGo_nonl (w : List Char) : ∀ acc : List Char, '\n' ∉ w →
    splitNlGo w acc = [acc.reverse ++ w] := by
  induction w with
  | nil => intro acc _; simp [splitNlGo]
  | cons c rest ih =>
    intro acc hw
    have hcn : (c == '\n') = false := by
      rw [beq_eq_false_iff_ne]
      intro hh
      exact hw (by simp [hh])
    simp only [splitNlGo, hcn, Bool.false_eq_true, if_false]
    rw [ih (c :: acc) (fun hmem => hw (by simp [hmem]))]
    simp

/-- Splitting a newline-free chunk followed by a newline emits the chunk as
a line and continues. -/
theorem splitNlGo_break (w : List Char) : ∀ (rest acc : List Char), '\n' ∉ w →
    splitNlGo (w ++ '\n' :: rest) acc
      = (acc.reverse ++ w) :: splitNlGo rest [] := by
  induction w with
  | nil => intro rest acc _; simp [splitNlGo]
  | cons c w2 ih =>
    intro rest acc hw
    have hcn : (c == '\n') = false := by
      rw [beq_eq_false_iff_ne]
      intro hh
      exact hw (by simp [hh])
    simp only [List.cons_append, splitNlGo, hcn, Bool.false_eq_true, if_false]
    rw [show w2.append ('\n' :: rest) = w2 ++ '\n' :: rest from rfl]
    rw [ih rest (c :: acc) (fun hmem => hw (by simp [hmem]))]
    simp

/-- Splitting the newline-join of newline-free lines recovers the lines. -/
theorem splitNl_join : ∀ ls : List (List Char), ls ≠ [] →
    (∀ l ∈ ls, '\n' ∉ l) →
    splitNl ((joinSep "\n" (ls.map String.mk)).data) = ls := by
  intro ls
  induction ls with
  | nil => intro h _; exact absurd rfl h
  | cons w rest ih =>
    intro _ hnl
    cases rest with
    | nil =>
      show splitNlGo (String.mk w).data [] = [w]
      rw [splitNlGo_nonl w [] (hnl w (by simp))]
      rfl
    | cons v rest2 =>
      have hdata : (joinSep "\n" ((w :: v :: rest2).map String.mk)).data
          = w ++ '\n' :: (joinSep "\n" ((v :: rest2).map String.mk)).data := by
        show (String.mk w ++ "\n" ++
          joinSep "\n" ((v :: rest2).map String.mk)).data = _
        rw [String.data_append, String.data_append]
        simp [List.append_assoc]
      show splitNlGo _ [] = _
      rw [hdata, splitNlGo_break w _ [] (hnl w (by simp))]
      rw [show splitNlGo (joinSep "\n" ((v :: rest2).map String.mk)).data []
        = splitNl (joinSep "\n" ((v :: rest2).map String.mk)).data from rfl]
      rw [ih (by simp) (fun l hl => hnl l (by simp [hl]))]
      rfl

/-- The tail of the header pattern on a well-formed header remainder. -/
theorem atTail_ok (idd : List Char) (hne : idd ≠ []) (hnc : ',' ∉ idd) :
    atTail (' ' :: '\x7b' :: (idd ++ [','])) = some idd := by
  have h1 : List.dropWhile (fun c => c == ' ')
      (' ' :: '\x7b' :: (idd ++ [',']))
      = '\x7b' :: (idd ++ [',']) := rfl
  have h2 : (idd ++ [',']).reverse = ',' :: idd.reverse := by simp
  have h3 : (idd.isEmpty || idd.contains ',') = false := by
    rw [Bool.or_eq_false_iff]
    constructor
    · rw [List.isEmpty_eq_false]; exact hne
    · rw [show idd.contains ',' = decide (',' ∈ idd) from
        List.elem_eq_mem ',' idd]
      exact decide_eq_false hnc
  simp only [atTail, h1, h2, List.reverse_reverse, h3, Bool.false_eq_true,
    if_false]

/-- The greedy `([^ ]+)` group of the header pattern on a well-formed
header: the group is the space-free type text, the id group follows. -/
theorem atGroup1_run (tyd idd : List Char) (hsp : ∀ x ∈ tyd, x ≠ ' ')
    (hid : idd ≠ []) (hnc : ',' ∉ idd) : ∀ acc : List Char,
    (tyd ≠ [] ∨ acc ≠ []) →
    atGroup1 (tyd ++ ' ' :: '\x7b' :: (idd ++ [','])) acc
      = some (acc.reverse ++ tyd, idd) := by
  induction tyd with
  | nil =>
    intro acc hne
    have hacc : acc.isEmpty = false := by
      rw [List.isEmpty_eq_false]
      rcases hne with h | h
      · exact absurd rfl h
      · exact h
    rw [List.nil_append]
    simp only [atGroup1, show ((' ' : Char) == ' ') = true from rfl, if_true,
      hacc, Bool.false_eq_true, if_false]
    rw [atTail_ok idd hid hnc]
    simp
  | cons c rest ih =>
    intro acc _
    have hc : (c == ' ') = false := by
      rw [beq_eq_false_iff_ne]
      exact hsp c (by simp)
    rw [List.cons_append]
    simp only [atGroup1, hc, Bool.false_eq_true, if_false]
    rw [ih (fun z hz => hsp z (by simp [hz])) (c :: acc) (Or.inr (by simp))]
    simp

/-- The attribute-line pattern on a serialized attribute line. -/
theorem attrLine_ok (kd vd : List Char) (hk : kd ≠ [])
    (hksp : ∀ x ∈ kd, (x != ' ' && x != '=') = true)
    (hv : vd ≠ []) (hvn : '\n' ∉ vd) :
    attrLine (' ' :: ' ' :: ' ' :: ' ' ::
        (kd ++ ' ' :: '=' :: ' ' :: '\x7b' :: (vd ++ ['\x7d', ','])))
      = some (kd, vd) := by
  have hd4 : (' ' :: ' ' :: ' ' :: ' ' ::
      (kd ++ ' ' :: '=' :: ' ' :: '\x7b' :: (vd ++ ['\x7d', ',']))).dropWhile
        (fun c => c == ' ')
      = kd ++ ' ' :: '=' :: ' ' :: '\x7b' :: (vd ++ ['\x7d', ',']) := by
    obtain ⟨c0, kd2, rfl⟩ : ∃ c0 kd2, kd = c0 :: kd2 := by
      cases kd with
      | nil => exact absurd rfl hk
      | cons c0 kd2 => exact ⟨c0, kd2, rfl⟩
    have hc0 : (c0 == ' ') = false := by
      have hx := hksp c0 (by simp)
      rw [Bool.and_eq_true, bne_iff_ne] at hx
      rw [beq_eq_false_iff_ne]
      exact hx.1
    simp [List.dropWhile_cons, hc0]
  obtain ⟨htk, hdk⟩ := tw_split (fun c => c != ' ' && c != '=') kd ' '
    ('=' :: ' ' :: '\x7b' :: (vd ++ ['\x7d', ','])) hksp (by rfl)
  have hke : kd.isEmpty = false := by rw [List.isEmpty_eq_false]; exact hk
  have h5 : List.dropWhile (fun c => c == ' ')
      (' ' :: '=' :: ' ' :: '\x7b' :: (vd ++ ['\x7d', ',']))
      = '=' :: ' ' :: '\x7b' :: (vd ++ ['\x7d', ',']) := rfl
  have h6 : List.dropWhile (fun c => c == ' ')
      (' ' :: '\x7b' :: (vd ++ ['\x7d', ',']))
      = '\x7b' :: (vd ++ ['\x7d', ',']) := rfl
  have h7 : (vd ++ ['\x7d', ',']).reverse = ',' :: '\x7d' :: vd.reverse := by
    simp
  have h8 : (vd.isEmpty || vd.contains '\n') = false := by
    rw [Bool.or_eq_false_iff]
    constructor
    · rw [List.isEmpty_eq_false]; exact hv
    · rw [show vd.contains '\n' = decide ('\n' ∈ vd) from
        List.elem_eq_mem '\n' vd]
      exact decide_eq_false hvn
  simp only [attrLine, hd4, htk, hdk, hke, h5, h6, h7, h8,
    List.reverse_reverse, Bool.false_eq_true, if_false]

/-- Assigning a key makes it look up to the new value. -/
theorem dset_lk_eq {α : Type} : ∀ (m : Dict α) (k : String) (v : α),
    lk (dsetV m k v) k = some v := by
  intro m k v
  induction m with
  | nil => exact lk_cons_eq k v []
  | cons p rest ih =>
    show lk (if p.1 = k then (k, v) :: rest else p :: dsetV rest k v) k = _
    by_cases hp : p.1 = k
    · rw [if_pos hp, lk_cons_eq]
    · rw [if_neg hp, lk_cons_ne _ _ hp, ih]

/-- Assigning a key leaves other lookups unchanged. -/
theorem dset_lk_ne {α : Type} {k k' : String} (h : k ≠ k') :
    ∀ (m : Dict α) (v : α), lk (dsetV m k v) k' = lk m k' := by
  intro m v
  induction m with
  | nil => rw [show dsetV ([] : Dict α) k v = [(k, v)] from rfl,
      lk_cons_ne _ _ h]
  | cons p rest ih =>
    show lk (if p.1 = k then (k, v) :: rest else p :: dsetV rest k v) k' = _
    by_cases hp : p.1 = k
    · rw [if_pos hp, lk_cons_ne _ _ h, lk_cons, if_neg (hp ▸ h)]
    · rw [if_neg hp, lk_cons, ih, lk_cons]

/-- Folding assignments of distinct keys: a key assigned somewhere in the
list looks up to its assigned value; a key not in the list is untouched. -/
theorem lk_foldl_dset : ∀ (L : List (String × String)) (p0 : Dict String)
    (k : String), (L.map Prod.fst).Nodup →
    lk (L.foldl (fun acc q => dsetV acc q.1 q.2) p0) k
      = match L.find? (fun q => q.1 == k) with
        | some q => some q.2
        | none => lk p0 k := by
  intro L
  induction L with
  | nil => intros; rfl
  | cons q L ih =>
    intro p0 k hnd
    rw [List.map_cons, List.nodup_cons] at hnd
    rw [List.foldl_cons]
    by_cases hk : q.1 = k
    · rw [List.find?_cons_of_pos _ (by simp [hk])]
      rw [ih _ _ hnd.2]
      have hnone : L.find? (fun r => r.1 == k) = none := by
        rw [List.find?_eq_none]
        intro x hx
        simp only [beq_iff_eq]
        intro heq
        apply hnd.1
        rw [hk, ← heq]
        exact List.mem_map_of_mem Prod.fst hx
      rw [hnone]
      show lk (dsetV p0 q.1 q.2) k = some q.2
      rw [← hk]
      exact dset_lk_eq p0 q.1 q.2
    · rw [List.find?_cons_of_neg _ (by simp [hk])]
      rw [ih _ _ hnd.2]
      cases hfind : L.find? (fun r => r.1 == k) with
      | some r => rfl
      | none => exact dset_lk_ne hk p0 q.2

/-- Inserting into a sorted list permutes consing. -/
theorem insSorted_perm (p : String × HWVal) :
    ∀ l : Dict HWVal, (insSorted p l).Perm (p :: l) := by
  intro l
  induction l with
  | nil => exact List.Perm.refl _
  | cons q rest ih =>
    show (if strLeB p.1.data q.1.data then p :: q :: rest
      else q :: insSorted p rest).Perm _
    by_cases hle : strLeB p.1.data q.1.data
    · rw [if_pos hle]
    · rw [if_neg hle]
      exact ((ih.cons q).trans (List.Perm.swap p q rest))

/-- Sorting a record permutes it. -/
theorem sortByKey_perm : ∀ m : Dict HWVal, (sortByKey m).Perm m := by
  intro m
  induction m with
  | nil => exact List.Perm.refl _
  | cons p rest ih =>
    show (insSorted p (sortByKey rest)).Perm (p :: rest)
    exact (insSorted_perm p (sortByKey rest)).trans (ih.cons p)

/-- In a list with distinct keys, `find?` by a present key finds exactly
that entry. -/
theorem find?_key_nodup {α : Type} : ∀ (L : List (String × α)) (k : String)
    (x : α), (L.map Prod.fst).Nodup → (k, x) ∈ L →
    L.find? (fun q => q.1 == k) = some (k, x) := by
  intro L
  induction L with
  | nil => intro k x _ hm; simp at hm
  | cons q L ih =>
    intro k x hnd hm
    rw [List.map_cons, List.nodup_cons] at hnd
    rcases List.mem_cons.mp hm with heq | hmem
    · subst heq
      rw [List.find?_cons_of_pos _ (by simp)]
    · have hne : q.1 ≠ k := by
        intro heq
        exact hnd.1 (heq ▸ List.mem_map_of_mem Prod.fst hmem)
      rw [List.find?_cons_of_neg _ (by simp [hne])]
      exact ih k x hnd.2 hmem

/-- The reader on a serialized header line: opens a paper carrying the id
and the type. -/
theorem read_step_header (papers : Dict (Dict String))
    (cur : Option (Dict String)) (ty i : String)
    (hty : ∀ x ∈ ty.data, x ≠ ' ') (htyne : ty.data ≠ [])
    (hid : i.data ≠ []) (hic : ',' ∉ i.data) :
    read_step (papers, cur) (String.mk (headerLine ty i))
      = .ok (papers, some [("id", i), ("type", ty)]) := by
  have hshape : headerLine ty i
      = ('@' :: (ty.data ++ ' ' :: '\x7b' :: i.data)) ++ [','] := by
    simp [headerLine, List.append_assoc]
  have hr : rstripL (headerLine ty i) = headerLine ty i := by
    rw [hshape, rstrip_nosp _ _ (by decide), ← hshape]
  unfold read_step
  rw [show (String.mk (headerLine ty i)).data = headerLine ty i from rfl, hr]
  rw [show headerLine ty i
    = '@' :: (ty.data ++ ' ' :: '\x7b' :: (i.data ++ [','])) from rfl]
  dsimp only
  rw [if_pos rfl]
  rw [show atLine ('@' :: (ty.data ++ ' ' :: '\x7b' :: (i.data ++ [','])))
    = atGroup1 (ty.data ++ ' ' :: '\x7b' :: (i.data ++ [','])) [] from rfl]
  rw [atGroup1_run ty.data i.data hty hid hic [] (Or.inl htyne)]
  rfl

/-- The reader on a serialized attribute line: sets the slot attribute on
the open paper. -/
theorem read_step_attr (papers : Dict (Dict String)) (p : Dict String)
    (k v : String) (hk : k.data ≠ [])
    (hksp : ∀ x ∈ k.data, (x != ' ' && x != '=') = true)
    (hslot : paperSlots.contains k = true)
    (hv : v.data ≠ []) (hvn : '\n' ∉ v.data) :
    read_step (papers, some p) (String.mk (attrLineStr k v))
      = .ok (papers, some (dsetV p k v)) := by
  have hshape : attrLineStr k v
      = (' ' :: ' ' :: ' ' :: ' ' ::
          (k.data ++ ' ' :: '=' :: ' ' :: '\x7b' :: v.data) ++ ['\x7d'])
        ++ [','] := by
    simp [attrLineStr, List.append_assoc]
  have hr : rstripL (attrLineStr k v) = attrLineStr k v := by
    rw [hshape, rstrip_nosp _ _ (by decide), ← hshape]
  unfold read_step
  rw [show (String.mk (attrLineStr k v)).data = attrLineStr k v from rfl, hr]
  rw [show attrLineStr k v = ' ' :: (' ' :: ' ' :: ' ' ::
    (k.data ++ ' ' :: '=' :: ' ' :: '\x7b' :: (v.data ++ ['\x7d', ','])))
    from rfl]
  dsimp only
  rw [if_neg (by decide), if_neg (by decide)]
  rw [show attrLine (' ' :: (' ' :: ' ' :: ' ' ::
      (k.data ++ ' ' :: '=' :: ' ' :: '\x7b' :: (v.data ++ ['\x7d', ',']))))
    = attrLine (' ' :: ' ' :: ' ' :: ' ' ::
      (k.data ++ ' ' :: '=' :: ' ' :: '\x7b' :: (v.data ++ ['\x7d', ','])))
    from rfl]
  rw [attrLine_ok k.data v.data hk hksp hv hvn]
  dsimp only
  rw [show String.mk k.data = k from rfl, show String.mk v.data = v from rfl]
  rw [if_pos hslot]

/-- The reader on the closing `}` line: stores the open paper under its id. -/
theorem read_step_close (papers : Dict (Dict String)) (p : Dict String) :
    read_step (papers, some p) (String.mk ['\x7d'])
      = .ok (dsetV papers ((lk p "id").getD "") p, none) := rfl

/-- Unfolding the reader fold over the first line. -/
theorem readFold_cons (st : ReadSt) (line : String) (rest : List String) :
    readFold st (line :: rest)
      = match read_step st line with
        | .error e => .error e
        | .ok st2 => readFold st2 rest := rfl

/-- Folding the reader over serialized attribute lines accumulates the slot
assignments on the open paper. -/
theorem readFold_attrs : ∀ (ps : List (String × String))
    (papers : Dict (Dict String)) (p : Dict String),
    (∀ q ∈ ps, q.1.data ≠ [] ∧ (∀ x ∈ q.1.data, (x != ' ' && x != '=') = true)
      ∧ paperSlots.contains q.1 = true ∧ q.2.data ≠ [] ∧ '\n' ∉ q.2.data) →
    ∀ rest : List String,
    readFold (papers, some p)
        ((ps.map (fun q => String.mk (attrLineStr q.1 q.2))) ++ rest)
      = readFold (papers, some (ps.foldl (fun acc q => dsetV acc q.1 q.2) p))
          rest := by
  intro ps
  induction ps with
  | nil => intros; rfl
  | cons q ps ih =>
    intro papers p hwf rest
    obtain ⟨h1, h2, h3, h4, h5⟩ := hwf q (by simp)
    rw [List.map_cons, List.cons_append, readFold_cons,
      read_step_attr papers p q.1 q.2 h1 h2 h3 h4 h5]
    exact ih papers (dsetV p q.1 q.2) (fun r hr => hwf r (by simp [hr])) rest

/-- A string whose character data is known is `String.mk` of it. -/
theorem str_eq_mk {s : String} {d : List Char} (h : s.data = d) :
    s = String.mk d := by
  cases s with
  | mk sd => cases h; rfl

/-- An empty lookup means no binding carries the key. -/
theorem lk_eq_none {α : Type} {m : Dict α} {k : String} :
    lk m k = none ↔ ∀ q ∈ m, q.1 ≠ k := by
  unfold lk
  rw [Option.map_eq_none', List.find?_eq_none]
  constructor
  · intro h q hq
    have := h q hq
    simpa using this
  · intro h q hq
    simpa using h q hq

/-- The serializer on a complete string-valued record: the header line, the
sorted non-`type`/`id` attribute lines, and the closing brace. -/
theorem bibtex_to_str_shape (ty i : String) (fsmap : Dict HWVal) :
    bibtex_to_str (("type", .scalar ty) :: ("id", .scalar i) :: fsmap)
      = .ok (joinSep "\n" (("@" ++ ty ++ " \x7b" ++ i ++ ",") ::
          ((((sortByKey (("type", .scalar ty) :: ("id", .scalar i) ::
              fsmap)).filter (fun p => p.1 != "type" && p.1 != "id")).map
            (fun p => "    " ++ p.1 ++ " = \x7b" ++ pyStr p.2 ++ "\x7d,"))
          ++ ["\x7d"]))) := by
  have h1 : lk (("type", HWVal.scalar ty) :: ("id", HWVal.scalar i) :: fsmap)
      "type" = some (.scalar ty) := lk_cons_eq _ _ _
  have h2 : lk (("type", HWVal.scalar ty) :: ("id", HWVal.scalar i) :: fsmap)
      "id" = some (.scalar i) := by
    rw [lk_cons_ne _ _ (by decide), lk_cons_eq]
  unfold bibtex_to_str
  rw [h1, h2]
  rfl

/-- The characters of a serialized header line. -/
theorem header_data (ty i : String) :
    ("@" ++ ty ++ " \x7b" ++ i ++ ",").data = headerLine ty i := by
  simp only [String.data_append]
  show ['@'] ++ ty.data ++ [' ', '\x7b'] ++ i.data ++ [','] = _
  simp [headerLine, List.append_assoc]

/-- The characters of a serialized attribute line. -/
theorem attr_data (k : String) (v : HWVal) :
    ("    " ++ k ++ " = \x7b" ++ pyStr v ++ "\x7d,").data
      = attrLineStr k (pyStr v) := by
  simp only [String.data_append]
  show [' ', ' ', ' ', ' '] ++ k.data ++ [' ', '=', ' ', '\x7b'] ++
    (pyStr v).data ++ ['\x7d', ','] = _
  simp [attrLineStr, List.append_assoc]

/-- Every `Paper` slot name is a nonempty name of legal attribute-line
characters without newlines. -/
theorem slot_chars {k : String} (h : paperSlots.contains k = true) :
    k.data ≠ [] ∧ (∀ x ∈ k.data, (x != ' ' && x != '=') = true) ∧
      '\n' ∉ k.data := by
  have hm : k ∈ paperSlots := by
    rw [show paperSlots.contains k = decide (k ∈ paperSlots) from
      List.elem_eq_mem k paperSlots] at h
    exact of_decide_eq_true h
  fin_cases hm <;> exact ⟨by decide, by decide, by decide⟩

/-- A serialized attribute line contains no newline when neither the name
nor the value does. -/
theorem attr_no_nl {k v : String} (hk : '\n' ∉ k.data) (hv : '\n' ∉ v.data) :
    '\n' ∉ attrLineStr k v := by
  intro hmem
  simp only [attrLineStr, List.mem_cons, List.mem_append,
    List.not_mem_nil, or_false] at hmem
  rcases hmem with h | h | h | h | h | h | h | h | h | h | h | h <;>
    first
      | exact absurd h (by decide)
      | exact hk h
      | exact hv h

/-- A serialized header line contains no newline when neither the type nor
the id does. -/
theorem header_no_nl {ty i : String} (hty : '\n' ∉ ty.data)
    (hi : '\n' ∉ i.data) : '\n' ∉ headerLine ty i := by
  intro hmem
  simp only [headerLine, List.mem_cons, List.mem_append,
    List.not_mem_nil, or_false] at hmem
  rcases hmem with h | h | h | h | h | h <;>
    first
      | exact absurd h (by decide)
      | exact hty h
      | exact hi h

/-- Reducing the reader fold past a successful step. -/
theorem readFold_ok_step (st : ReadSt) (rest : List String) :
    (match (Except.ok st : Except PyErr ReadSt) with
      | .error e => .error e
      | .ok st2 => readFold st2 rest) = readFold st rest := rfl

/-! ### The claims -/

/-- Claim C1 (code bug): on the spec's end-to-end HTML — exactly the five
meta-tags `citation_title="Deep Learning"`, `citation_author="Jane Q
Public"`, `citation_date="2019-05-01"`, `citation_journal="Nature"`,
`citation_doi="10.1/xyz"` — and a URL resolving to a domain with no site
override, the pipeline does not return the specified BibTeX text: the single
author collapses to a scalar, `parse_author` iterates it character by
character, and the space in `"Jane Q Public"` raises `IndexError`.  This
theorem evaluates the code at the failing input. -/
theorem claim1_pipeline_crashes :
    to_bibtex sdNone "https://example.com/article" html1
      = .error PyErr.indexError := by rfl

/-- Claim C2, counterexample: with author `"Public, Jane Q"`, year
`"2019"` and title `"DNA Study"`, the code produces
`"Public2019DnaStudy"` — the `.title()` call lowercases the letters after
the first letter of each title word — and not the `"Public2019DNAStudy"`
the claim's casing-preservation rule requires. -/
theorem claim2_counterexample :
    create_bibtex_id [("author", .scalar "Public, Jane Q"),
        ("year", .scalar "2019"), ("title", .scalar "DNA Study")]
      = .ok "Public2019DnaStudy" ∧
    "Public2019DnaStudy" ≠ "Public2019DNAStudy" := by
  constructor
  · rfl
  · decide

/-- Claim C2, amended: with author, year and title present as strings, the
key is the author text before the first comma, the year, and the first
three words of the non-alphanumeric-stripped title, each word title-cased
(first letter capitalized, following letters LOWERCASED — by `.title()` —
with a letter after a digit re-capitalized), joined without separators and
with every remaining space removed from the whole key; in particular the
spec's example still yields `Public2019AStudyOf`. -/
theorem claim2_amended :
    (∀ a y t : String,
      create_bibtex_id [("author", .scalar a), ("year", .scalar y),
          ("title", .scalar t)]
        = .ok (idSpec a y t)) ∧
    create_bibtex_id [("author", .scalar "Public, Jane Q"),
        ("year", .scalar "2019"), ("title", .scalar "A Study of Things")]
      = .ok "Public2019AStudyOf" := by
  refine ⟨fun a y t => ?_, by rfl⟩
  have hbase : create_bibtex_id [("author", .scalar a), ("year", .scalar y),
      ("title", .scalar t)] = .ok (mkId a y t) := rfl
  rw [hbase, mkId_eq_idSpec]

/-- Witness for claim C2's amended statement: the code key for the `DNA
Study` record equals the amended specification's key. -/
theorem claim2_witness :
    create_bibtex_id [("author", HWVal.scalar "Public, Jane Q"),
        ("year", HWVal.scalar "2019"), ("title", HWVal.scalar "DNA Study")]
      = .ok (idSpec "Public, Jane Q" "2019" "DNA Study") :=
  claim2_amended.1 "Public, Jane Q" "2019" "DNA Study"

/-- Claim C5, counterexample: a page with two `citation_title` tags gives
the resolved record `recTwoTitles`, whose `title` is a list; the key
computation then raises `TypeError` (`re.sub` on a list), so it is not
error-free on every resolved record. -/
theorem claim5_counterexample :
    resolveAttrs hwTwoTitles = .ok recTwoTitles ∧
    create_bibtex_id recTwoTitles = .error PyErr.typeError := by
  constructor
  · rfl
  · rfl

/-- Claim C8, counterexample: the assembled record for a page whose only
citation tag is `citation_doi` with empty content maps `doi` to the empty
string — a present attribute with an empty value, contradicting the claimed
non-emptiness invariant. -/
theorem claim8_counterexample :
    recordOf sdNone "https://example.com/a" htmlEmptyDoi
      = .ok [("doi", .scalar ""), ("type", .scalar "inproceedings"),
             ("id", .scalar "FIXME")] ∧
    lk [(("doi" : String), HWVal.scalar ""),
        ("type", HWVal.scalar "inproceedings"),
        ("id", HWVal.scalar "FIXME")] "doi" = some (.scalar "") := by
  constructor
  · rfl
  · rfl

/-- Claim C5, amended: for every resolved record whose `title` (if present)
is a single string, the key computation never raises and yields `FIXME`
exactly when `author`, `year` or `title` is absent (for present years the
resolver guarantees a nonempty digit string, so a computed key can never
collide with the sentinel); but a resolved record can carry a list-valued
`title` (repeated `citation_title` tags), and then the key computation
raises `TypeError`. -/
theorem claim5_amended (hw b : Dict HWVal) (hres : resolveAttrs hw = .ok b)
    (hts : scalOpt (lk b "title") = true) :
    ∃ s, create_bibtex_id b = .ok s ∧
      (s = "FIXME" ↔
        (lk b "author" = none ∨ lk b "year" = none ∨ lk b "title" = none)) := by
  obtain ⟨a, ty, y, ha, hty, hy, rfl⟩ := resolve_ok_shape hres
  rw [buildB_title] at hts
  unfold create_bibtex_id
  rw [buildB_author, buildB_year, buildB_title]
  cases a with
  | none => exact ⟨"FIXME", rfl, by simp⟩
  | some as =>
    cases y with
    | none => exact ⟨"FIXME", rfl, by simp⟩
    | some ys =>
      cases htv : parse_title hw with
      | none => exact ⟨"FIXME", rfl, by simp⟩
      | some tv =>
        rw [htv] at hts
        cases tv with
        | vals l => simp [scalOpt] at hts
        | scalar ts =>
          obtain ⟨hne, hdig⟩ := parse_year_digits hy
          exact ⟨mkId as ys ts, rfl,
            by simp [mkId_ne_FIXME as ys ts hne hdig]⟩

/-- Witness for claim C5's amended statement at a two-author, one-title
page's resolved record. -/
theorem claim5_witness :
    ∃ s, create_bibtex_id [("author", HWVal.scalar "Public, Jane Q and Roe, R"),
        ("title", HWVal.scalar "A Study of Things"),
        ("type", HWVal.scalar "inproceedings"),
        ("year", HWVal.scalar "2019")] = .ok s ∧
      (s = "FIXME" ↔
        (lk [(("author" : String), HWVal.scalar "Public, Jane Q and Roe, R"),
            ("title", HWVal.scalar "A Study of Things"),
            ("type", HWVal.scalar "inproceedings"),
            ("year", HWVal.scalar "2019")] "author" = none ∨
         lk [(("author" : String), HWVal.scalar "Public, Jane Q and Roe, R"),
            ("title", HWVal.scalar "A Study of Things"),
            ("type", HWVal.scalar "inproceedings"),
            ("year", HWVal.scalar "2019")] "year" = none ∨
         lk [(("author" : String), HWVal.scalar "Public, Jane Q and Roe, R"),
            ("title", HWVal.scalar "A Study of Things"),
            ("type", HWVal.scalar "inproceedings"),
            ("year", HWVal.scalar "2019")] "title" = none)) :=
  claim5_amended
    [("author", .vals ["Public, Jane Q", "Roe, R"]), ("date", .scalar "2019"),
     ("title", .scalar "A Study of Things")]
    [("author", .scalar "Public, Jane Q and Roe, R"),
     ("title", .scalar "A Study of Things"),
     ("type", .scalar "inproceedings"), ("year", .scalar "2019")]
    (by rfl) (by rfl)

/-- Claim C8, amended: absent attributes are omitted from the assembled
record entirely (an attribute is present exactly when its resolver produced
a value, and with that value) and no null placeholder exists; but the
non-emptiness part of the invariant fails: a citation meta-tag with empty
content yields a present attribute whose value is the empty string, as the
concrete `citation_doi` page shows. -/
theorem claim8_amended :
    (∀ hw b : Dict HWVal, highwire_to_bibtex hw = .ok b →
      ∃ a ty y idv,
        parse_author hw = .ok a ∧ parse_type hw = .ok ty ∧
        parse_year hw = .ok y ∧
        create_bibtex_id (buildB hw a ty y) = .ok idv ∧
        lk b "author" = Option.map HWVal.scalar a ∧
        lk b "doi" = parse_doi hw ∧
        lk b "journal" = parse_journal hw ∧
        lk b "number" = parse_number hw ∧
        lk b "pages" = Option.map HWVal.scalar (parse_pages hw) ∧
        lk b "publisher" = parse_publisher hw ∧
        lk b "title" = parse_title hw ∧
        lk b "type" = some (HWVal.scalar ty) ∧
        lk b "volume" = parse_volume hw ∧
        lk b "year" = Option.map HWVal.scalar y ∧
        lk b "id" = some (HWVal.scalar idv) ∧
        (∀ k : String,
          k ∉ ["author", "doi", "journal", "number", "pages", "publisher",
               "title", "type", "volume", "year", "id"] → lk b k = none)) ∧
    recordOf sdNone "https://example.com/a" htmlEmptyDoi
      = .ok [("doi", .scalar ""), ("type", .scalar "inproceedings"),
             ("id", .scalar "FIXME")] := by
  refine ⟨fun hw b h => ?_, by rfl⟩
  obtain ⟨b0, idv, hr, hid, rfl⟩ := highwire_ok_shape h
  obtain ⟨a, ty, y, ha, hty, hy, rfl⟩ := resolve_ok_shape hr
  refine ⟨a, ty, y, idv, ha, hty, hy, hid,
    ?_, ?_, ?_, ?_, ?_, ?_, ?_, ?_, ?_, ?_, ?_, ?_⟩
  · rw [lk_append_ne _ _ (by decide), buildB_author]
  · rw [lk_append_ne _ _ (by decide), buildB_doi]
  · rw [lk_append_ne _ _ (by decide), buildB_journal]
  · rw [lk_append_ne _ _ (by decide), buildB_number]
  · rw [lk_append_ne _ _ (by decide), buildB_pages]
  · rw [lk_append_ne _ _ (by decide), buildB_publisher]
  · rw [lk_append_ne _ _ (by decide), buildB_title]
  · rw [lk_append_ne _ _ (by decide), buildB_type]
  · rw [lk_append_ne _ _ (by decide), buildB_volume]
  · rw [lk_append_ne _ _ (by decide), buildB_year]
  · exact lk_append_hit _ (buildB_id_none hw a ty y)
  · intro k hk
    simp only [List.mem_cons, List.not_mem_nil, or_false, not_or] at hk
    obtain ⟨h1, h2, h3, h4, h5, h6, h7, h8, h9, h10, h11⟩ := hk
    rw [lk_append_ne _ _ (fun he => h11 he.symm)]
    refine lk_rows_skip k _ ?_
    simp only [List.all_cons, List.all_nil, Bool.and_eq_true, bne_iff_ne,
      ne_eq, and_true]
    exact ⟨fun he => h1 he.symm, fun he => h2 he.symm, fun he => h3 he.symm,
      fun he => h4 he.symm, fun he => h5 he.symm, fun he => h6 he.symm,
      fun he => h7 he.symm, fun he => h8 he.symm, fun he => h9 he.symm,
      fun he => h10 he.symm⟩

/-- Witness for claim C8's amended statement at the empty-content page's
metadata: the present `doi` carries exactly the resolver output, and an
attribute outside the resolver set, such as `note`, is absent. -/
theorem claim8_witness :
    (lk [(("doi" : String), HWVal.scalar ""),
        ("type", HWVal.scalar "inproceedings"),
        ("id", HWVal.scalar "FIXME")] "doi"
      = parse_doi [(("doi" : String), HWVal.scalar "")]) ∧
    lk [(("doi" : String), HWVal.scalar ""),
        ("type", HWVal.scalar "inproceedings"),
        ("id", HWVal.scalar "FIXME")] "note" = none := by
  obtain ⟨a, ty, y, idv, ha, hty, hy, hid, hau, hdoi, hjour, hnum, hpag,
      hpub, htit, htyp, hvol, hyr, hidl, hnone⟩ :=
    claim8_amended.1 [("doi", HWVal.scalar "")]
      [("doi", .scalar ""), ("type", .scalar "inproceedings"),
       ("id", .scalar "FIXME")] (by rfl)
  exact ⟨hdoi, hnone "note" (by decide)⟩

/-- Claim C9, counterexample: the claim says `<META ...>` contributes the
same name/content pair as `<meta ...>`; in fact the scan is case-sensitive,
so the uppercase page scrapes to an empty dict while the lowercase page
yields the title. -/
theorem claim9_counterexample :
    scrape_highwire sdNone "example" htmlUpperMeta = .ok [] ∧
    scrape_highwire sdNone "example" htmlLowerMeta
      = .ok [("title", .scalar "X")] := by
  constructor
  · rfl
  · rfl

/-- Claim C9, amended: the Tag Extractor matches the tag name
case-SENSITIVELY — only lowercase `meta` is recognized, and `<META ...>` or
`<Meta ...>` contributes nothing — while whitespace between `<` and `meta`
is tolerated. -/
theorem claim9_amended :
    scrape_highwire sdNone "example" htmlLowerMeta
      = .ok [("title", .scalar "X")] ∧
    scrape_highwire sdNone "example" htmlSpacedMeta
      = .ok [("title", .scalar "X")] ∧
    scrape_highwire sdNone "example" htmlUpperMeta = .ok [] ∧
    scrape_highwire sdNone "example" htmlMixedMeta = .ok [] := by
  refine ⟨?_, ?_, ?_, ?_⟩ <;> rfl

/-- Claim C3, counterexample: the complete record `recNewline` (type and id
present, every other attribute a single string) serializes fine, but
re-parsing the text crashes the reader's line assertion — the value's
embedded newline splits the attribute line in two — so re-parsing does not
reconstruct the mapping. -/
theorem claim3_counterexample :
    bibtex_to_str recNewline
      = .ok "@article \x7bK,\n    note = \x7ba\nb\x7d,\n\x7d" ∧
    readStr "@article \x7bK,\n    note = \x7ba\nb\x7d,\n\x7d"
      = .error PyErr.assertError := by
  constructor
  · rfl
  · rfl

/-- Claim C3, amended: serializing a complete Record and re-parsing it with
the library's line-oriented parser reconstructs the same
attribute-to-value mapping, including type and id, provided the record is
parseable at all: the type is nonempty with no space or newline, the id is
nonempty with no comma or newline, and every other attribute is a `Paper`
slot name other than `type`/`id` (distinct) with a nonempty newline-free
string value.  (Outside these conditions the round trip can fail, as the
newline counterexample shows.) -/
theorem claim3_amended (ty i : String) (fs : List (String × String))
    (htysp : ∀ x ∈ ty.data, x ≠ ' ') (htyne : ty.data ≠ [])
    (htynl : '\n' ∉ ty.data)
    (hine : i.data ≠ []) (hic : ',' ∉ i.data) (hinl : '\n' ∉ i.data)
    (hfs : ∀ q ∈ fs, paperSlots.contains q.1 = true ∧ q.1 ≠ "type" ∧
      q.1 ≠ "id" ∧ q.2.data ≠ [] ∧ '\n' ∉ q.2.data)
    (hnd : (fs.map Prod.fst).Nodup) :
    ∃ s p, bibtex_to_str (("type", HWVal.scalar ty) :: ("id", HWVal.scalar i)
        :: fs.map (fun q => (q.1, HWVal.scalar q.2))) = .ok s ∧
      readStr s = .ok [(i, p)] ∧
      lk p "type" = some ty ∧ lk p "id" = some i ∧
      ∀ k, k ≠ "type" → k ≠ "id" → lk p k = lk fs k := by
  have hkeyeq : (fs.map (fun q => (q.1, HWVal.scalar q.2))).map Prod.fst
      = fs.map Prod.fst := by
    rw [List.map_map]
    rfl
  have hbnd : ((("type", HWVal.scalar ty) :: ("id", HWVal.scalar i) ::
      fs.map (fun q => (q.1, HWVal.scalar q.2))).map Prod.fst).Nodup := by
    rw [List.map_cons, List.map_cons, hkeyeq]
    rw [List.nodup_cons, List.nodup_cons]
    refine ⟨?_, ?_, hnd⟩
    · intro hmem
      rcases List.mem_cons.mp hmem with h | h
      · have h2 : ("type" : String) = "id" := h
        exact absurd h2 (by decide)
      · obtain ⟨q, hq, hq2⟩ := List.mem_map.mp h
        exact (hfs q hq).2.1 hq2
    · intro hmem
      obtain ⟨q, hq, hq2⟩ := List.mem_map.mp hmem
      exact (hfs q hq).2.2.1 hq2
  have hsortnd : (((sortByKey (("type", HWVal.scalar ty) ::
      ("id", HWVal.scalar i) :: fs.map (fun q => (q.1, HWVal.scalar q.2)))).map
        Prod.fst)).Nodup :=
    ((sortByKey_perm _).map Prod.fst).nodup_iff.mpr hbnd
  have hLnd : (((sortByKey (("type", HWVal.scalar ty) ::
      ("id", HWVal.scalar i) :: fs.map (fun q => (q.1, HWVal.scalar q.2)))).filter
        (fun p => p.1 != "type" && p.1 != "id")).map Prod.fst).Nodup :=
    List.Nodup.sublist ((List.filter_sublist _).map Prod.fst) hsortnd
  have hmemL : ∀ q : String × HWVal,
      q ∈ (sortByKey (("type", HWVal.scalar ty) :: ("id", HWVal.scalar i) ::
        fs.map (fun r => (r.1, HWVal.scalar r.2)))).filter
          (fun p => p.1 != "type" && p.1 != "id")
      ↔ q ∈ fs.map (fun r => (r.1, HWVal.scalar r.2)) := by
    intro q
    constructor
    · intro hq
      obtain ⟨hq1, hq2⟩ := List.mem_filter.mp hq
      have hb := (sortByKey_perm _).mem_iff.mp hq1
      rcases List.mem_cons.mp hb with rfl | hb2
      · simp at hq2
      · rcases List.mem_cons.mp hb2 with rfl | hb3
        · simp at hq2
        · exact hb3
    · intro hq
      apply List.mem_filter.mpr
      refine ⟨(sortByKey_perm _).mem_iff.mpr (by simp [hq]), ?_⟩
      obtain ⟨q0, hq0, rfl⟩ := List.mem_map.mp hq
      have h := hfs q0 hq0
      simp only [Bool.and_eq_true, bne_iff_ne]
      exact ⟨h.2.1, h.2.2.1⟩
  have hwfa : ∀ q ∈ ((sortByKey (("type", HWVal.scalar ty) ::
      ("id", HWVal.scalar i) :: fs.map (fun r => (r.1, HWVal.scalar r.2)))).filter
        (fun p => p.1 != "type" && p.1 != "id")).map
          (fun p => (p.1, pyStr p.2)),
      q.1.data ≠ [] ∧ (∀ x ∈ q.1.data, (x != ' ' && x != '=') = true) ∧
      paperSlots.contains q.1 = true ∧ q.2.data ≠ [] ∧ '\n' ∉ q.2.data := by
    intro q hq
    obtain ⟨p, hp, rfl⟩ := List.mem_map.mp hq
    obtain ⟨q0, hq0, rfl⟩ := List.mem_map.mp ((hmemL p).mp hp)
    have h := hfs q0 hq0
    obtain ⟨hs1, hs2, hs3⟩ := slot_chars h.1
    exact ⟨hs1, hs2, h.1, h.2.2.2.1, h.2.2.2.2⟩
  have hand : ((((sortByKey (("type", HWVal.scalar ty) ::
      ("id", HWVal.scalar i) :: fs.map (fun r => (r.1, HWVal.scalar r.2)))).filter
        (fun p => p.1 != "type" && p.1 != "id")).map
          (fun p => (p.1, pyStr p.2))).map Prod.fst).Nodup := by
    rw [List.map_map]
    exact hLnd
  have hfindnone : ∀ kk : String, (∀ q ∈ fs, q.1 ≠ kk) →
      (((sortByKey (("type", HWVal.scalar ty) :: ("id", HWVal.scalar i) ::
        fs.map (fun r => (r.1, HWVal.scalar r.2)))).filter
          (fun p => p.1 != "type" && p.1 != "id")).map
            (fun p => (p.1, pyStr p.2))).find? (fun q => q.1 == kk)
        = none := by
    intro kk hkk
    rw [List.find?_eq_none]
    intro x hx
    obtain ⟨p, hp, rfl⟩ := List.mem_map.mp hx
    obtain ⟨q0, hq0, rfl⟩ := List.mem_map.mp ((hmemL p).mp hp)
    simp only [beq_iff_eq]
    exact hkk q0 hq0
  have hlines : (("@" ++ ty ++ " \x7b" ++ i ++ ",") ::
      ((((sortByKey (("type", HWVal.scalar ty) :: ("id", HWVal.scalar i) ::
        fs.map (fun r => (r.1, HWVal.scalar r.2)))).filter
          (fun p => p.1 != "type" && p.1 != "id")).map
            (fun p => "    " ++ p.1 ++ " = \x7b" ++ pyStr p.2 ++ "\x7d,"))
      ++ ["\x7d"]))
      = ((headerLine ty i ::
          ((((sortByKey (("type", HWVal.scalar ty) :: ("id", HWVal.scalar i) ::
            fs.map (fun r => (r.1, HWVal.scalar r.2)))).filter
              (fun p => p.1 != "type" && p.1 != "id")).map
                (fun p => attrLineStr p.1 (pyStr p.2))) ++ [['\x7d']])).map
            String.mk) := by
    simp only [List.map_cons, List.map_append, List.map_map, List.map_nil]
    rw [show ("@" ++ ty ++ " \x7b" ++ i ++ ",") = String.mk (headerLine ty i)
      from str_eq_mk (header_data ty i)]
    rw [List.map_congr_left
      (fun (p : String × HWVal) _ => str_eq_mk (attr_data p.1 p.2))]
    rfl
  have hnl : ∀ l ∈ headerLine ty i ::
      ((((sortByKey (("type", HWVal.scalar ty) :: ("id", HWVal.scalar i) ::
        fs.map (fun r => (r.1, HWVal.scalar r.2)))).filter
          (fun p => p.1 != "type" && p.1 != "id")).map
            (fun p => attrLineStr p.1 (pyStr p.2))) ++ [['\x7d']]),
      '\n' ∉ l := by
    intro l hl
    rcases List.mem_cons.mp hl with rfl | hl2
    · exact header_no_nl htynl hinl
    rcases List.mem_append.mp hl2 with hl3 | hl4
    · obtain ⟨p, hp, rfl⟩ := List.mem_map.mp hl3
      obtain ⟨q0, hq0, rfl⟩ := List.mem_map.mp ((hmemL p).mp hp)
      have h := hfs q0 hq0
      exact attr_no_nl (slot_chars h.1).2.2 h.2.2.2.2
    · rw [List.mem_singleton] at hl4
      subst hl4
      decide
  refine ⟨_, (((sortByKey (("type", HWVal.scalar ty) :: ("id", HWVal.scalar i)
      :: fs.map (fun r => (r.1, HWVal.scalar r.2)))).filter
        (fun p => p.1 != "type" && p.1 != "id")).map
          (fun p => (p.1, pyStr p.2))).foldl
            (fun acc q => dsetV acc q.1 q.2) [("id", i), ("type", ty)],
    bibtex_to_str_shape ty i
      (fs.map (fun q => (q.1, HWVal.scalar q.2))), ?_, ?_, ?_, ?_⟩
  · show read_bibtex _ = _
    rw [hlines]
    rw [splitNl_join _ (by simp) hnl]
    unfold read_bibtex
    simp only [List.map_cons, List.map_append]
    rw [readFold_cons,
      read_step_header [] none ty i htysp htyne hine hic, readFold_ok_step]
    rw [show ((((sortByKey (("type", HWVal.scalar ty) ::
        ("id", HWVal.scalar i) :: fs.map (fun r => (r.1, HWVal.scalar r.2)))).filter
          (fun p => p.1 != "type" && p.1 != "id")).map
            (fun p => attrLineStr p.1 (pyStr p.2))).map String.mk)
      = (((sortByKey (("type", HWVal.scalar ty) :: ("id", HWVal.scalar i) ::
        fs.map (fun r => (r.1, HWVal.scalar r.2)))).filter
          (fun p => p.1 != "type" && p.1 != "id")).map
            (fun p => (p.1, pyStr p.2))).map
              (fun q => String.mk (attrLineStr q.1 q.2)) from by
      rw [List.map_map, List.map_map]
      rfl]
    rw [readFold_attrs _ [] _ hwfa _]
    rw [readFold_cons, read_step_close]
    have hPid : lk ((((sortByKey (("type", HWVal.scalar ty) ::
        ("id", HWVal.scalar i) :: fs.map (fun r => (r.1, HWVal.scalar r.2)))).filter
          (fun p => p.1 != "type" && p.1 != "id")).map
            (fun p => (p.1, pyStr p.2))).foldl
              (fun acc q => dsetV acc q.1 q.2) [("id", i), ("type", ty)]) "id"
        = some i := by
      rw [lk_foldl_dset _ _ _ hand,
        hfindnone "id" (fun q hq => (hfs q hq).2.2.1), lk_cons_eq]
    rw [hPid]
    rfl
  · rw [lk_foldl_dset _ _ _ hand,
      hfindnone "type" (fun q hq => (hfs q hq).2.1),
      lk_cons_ne _ _ (by decide), lk_cons_eq]
  · rw [lk_foldl_dset _ _ _ hand,
      hfindnone "id" (fun q hq => (hfs q hq).2.2.1), lk_cons_eq]
  · intro k hkty hkid
    rw [lk_foldl_dset _ _ _ hand]
    cases hlkfs : lk fs k with
    | some v =>
      have hmemfs : (k, v) ∈ fs := lk_mem hlkfs
      have hmemfsmap : (k, HWVal.scalar v) ∈
          fs.map (fun r => (r.1, HWVal.scalar r.2)) :=
        List.mem_map.mpr ⟨(k, v), hmemfs, rfl⟩
      have hmemLk := (hmemL (k, HWVal.scalar v)).mpr hmemfsmap
      have hmemAP : (k, v) ∈ ((sortByKey (("type", HWVal.scalar ty) ::
          ("id", HWVal.scalar i) :: fs.map (fun r => (r.1, HWVal.scalar r.2)))).filter
            (fun p => p.1 != "type" && p.1 != "id")).map
              (fun p => (p.1, pyStr p.2)) :=
        List.mem_map.mpr ⟨(k, HWVal.scalar v), hmemLk, rfl⟩
      rw [find?_key_nodup _ k v hand hmemAP]
    | none =>
      rw [hfindnone k (lk_eq_none.mp hlkfs)]
      rw [lk_cons_ne _ _ (Ne.symm hkid), lk_cons_ne _ _ (Ne.symm hkty)]
      rfl

/-- Witness for claim C3's amended statement at a concrete article record. -/
theorem claim3_witness :
    ∃ s p, bibtex_to_str (("type", HWVal.scalar "article") ::
        ("id", HWVal.scalar "Public2019AStudyOf")
        :: [("author", "Public, Jane Q"), ("title", "A Study of Things"),
            ("year", "2019")].map (fun q => (q.1, HWVal.scalar q.2)))
        = .ok s ∧
      readStr s = .ok [("Public2019AStudyOf", p)] ∧
      lk p "type" = some "article" ∧
      lk p "id" = some "Public2019AStudyOf" ∧
      ∀ k, k ≠ "type" → k ≠ "id" →
        lk p k = lk [("author", "Public, Jane Q"),
          ("title", "A Study of Things"), ("year", "2019")] k :=
  claim3_amended "article" "Public2019AStudyOf"
    [("author", "Public, Jane Q"), ("title", "A Study of Things"),
     ("year", "2019")]
    (by decide) (by decide) (by decide) (by decide) (by decide) (by decide)
    (by decide) (by decide)

/-- Claim C4 (confirmed): for every HTML with no citation meta-tag and
every URL whose parseable domain has no site override, the pipeline raises
nothing and assembles exactly the record with the fallback `type`
`inproceedings` and the sentinel id `FIXME`. -/
theorem claim4_confirmed (sdA : String → Except PyErr (Option HWVal))
    (url html d : String) (hd : get_domain url = .ok d)
    (hnd : d ≠ "sciencedirect") (hscan : collectTags html.data = []) :
    recordOf sdA url html
      = .ok [("type", .scalar "inproceedings"), ("id", .scalar "FIXME")] := by
  unfold recordOf
  rw [hd]
  dsimp only
  rw [scrape_empty sdA hnd hscan]
  rfl

/-- Witness for claim C4 at a concrete URL and citation-free page. -/
theorem claim4_witness :
    recordOf sdNone "https://example.com/a" "<p>x</p>"
      = .ok [("type", .scalar "inproceedings"), ("id", .scalar "FIXME")] :=
  claim4_confirmed sdNone "https://example.com/a" "<p>x</p>" "example"
    (by rfl) (by decide) (by rfl)

/-- Claim C6 (confirmed): the pages resolver returns a value exactly when
`firstpage` and `lastpage` are both present and differ, and then it is
`first--last`; otherwise `pages` is omitted from the assembled record; in
particular equal pages give absent and `5`/`12` give `5--12`. -/
theorem claim6_confirmed :
    (∀ (hw : Dict HWVal) (r : String), hwScal hw = true →
      (parse_pages hw = some r ↔
        ∃ f l, lk hw "firstpage" = some (.scalar f) ∧
          lk hw "lastpage" = some (.scalar l) ∧ f ≠ l ∧ r = f ++ "--" ++ l)) ∧
    (∀ hw b : Dict HWVal, resolveAttrs hw = .ok b → parse_pages hw = none →
      lk b "pages" = none) ∧
    parse_pages [("firstpage", .scalar "5"), ("lastpage", .scalar "5")]
      = none ∧
    parse_pages [("firstpage", .scalar "5"), ("lastpage", .scalar "12")]
      = some "5--12" := by
  refine ⟨fun hw r hs => pages_iff hw r hs, fun hw b h hp => ?_, by rfl, by rfl⟩
  obtain ⟨a, ty, y, _, _, _, rfl⟩ := resolve_ok_shape h
  rw [buildB_pages, hp]
  rfl

/-- Witness for claim C6: the characterization applied to the concrete
two-page dict yields `5--12`. -/
theorem claim6_witness :
    parse_pages [("firstpage", HWVal.scalar "5"),
      ("lastpage", HWVal.scalar "12")] = some "5--12" :=
  (claim6_confirmed.1 [("firstpage", HWVal.scalar "5"),
      ("lastpage", HWVal.scalar "12")] "5--12" (by rfl)).mpr
    ⟨"5", "12", by rfl, by rfl, by decide, rfl⟩

/-- Claim C7 (confirmed): on string-valued metadata the year resolver
realizes the priority chain `date`, `publication_date`, `online_date`,
`cover_date`, returning the first four-consecutive-digit substring of the
first candidate that has one, and absent when no candidate yields one; in
particular `date="Jan 2019"` gives `2019` and no date-like attribute gives
absent. -/
theorem claim7_confirmed :
    (∀ hw : Dict HWVal, hwScal hw = true →
      parse_year hw = .ok (yearSpec hw)) ∧
    parse_year [("date", .scalar "Jan 2019")] = .ok (some "2019") ∧
    parse_year ([] : Dict HWVal) = .ok none := by
  refine ⟨fun hw hs => ?_, by rfl, by rfl⟩
  unfold parse_year yearSpec
  exact yearLoop_spec hw hs _

/-- Witness for claim C7 at the concrete one-date dict. -/
theorem claim7_witness :
    parse_year [("date", HWVal.scalar "Jan 2019")]
      = .ok (yearSpec [("date", HWVal.scalar "Jan 2019")]) :=
  claim7_confirmed.1 [("date", HWVal.scalar "Jan 2019")] (by rfl)

/-- Claim C10 (confirmed): when the author entry has been collapsed to a
single scalar containing whitespace, `parse_author` iterates the string
character by character and raises `IndexError`, and the record assembly of
such a page fails with an exception; a page with exactly one
`citation_author` tag indeed scrapes to such a scalar. -/
theorem claim10_confirmed :
    (∀ (hw : Dict HWVal) (s : String), lk hw "author" = some (.scalar s) →
      s.data.any pySpace = true →
      parse_author hw = .error PyErr.indexError) ∧
    (∀ (hw : Dict HWVal) (s : String), lk hw "author" = some (.scalar s) →
      s.data.any pySpace = true →
      highwire_to_bibtex hw = .error PyErr.indexError) ∧
    scrape_highwire sdNone "example"
        "<meta name=\"citation_author\" content=\"Jane Q Public\">"
      = .ok [("author", .scalar "Jane Q Public")] := by
  refine ⟨fun hw s h hws => parse_author_scalar_ws h hws, fun hw s h hws => ?_, by rfl⟩
  unfold highwire_to_bibtex resolveAttrs
  rw [parse_author_scalar_ws h hws]

/-- Witness for claim C10 at the scraped one-author page. -/
theorem claim10_witness :
    parse_author [("author", HWVal.scalar "Jane Q Public")]
      = .error PyErr.indexError ∧
    highwire_to_bibtex [("author", HWVal.scalar "Jane Q Public")]
      = .error PyErr.indexError :=
  ⟨claim10_confirmed.1 [("author", HWVal.scalar "Jane Q Public")]
      "Jane Q Public" (by rfl) (by decide),
   claim10_confirmed.2.1 [("author", HWVal.scalar "Jane Q Public")]
      "Jane Q Public" (by rfl) (by decide)⟩

end Pim
